import Mathlib

/-!
# Fixed-block memory pool (`src/mempool/mempool.c`)

Shallow embedding of the pool allocator.

* Addresses are natural numbers, `0` is `NULL`.
* The store maps the address of a block header to the header
  (`struct mmblockhead_s`); the pool control block is `mempool_t`.
* `uint32_t` arithmetic is taken modulo `2^32`.
* `sizeof(struct mmblockhead_s)` depends on the target ABI and is the
  parameter `hs` of every operation.
* The mutex is not modelled: every operation runs as one atomic step.
  What `malloc` and `pthread_mutex_init` answer is an argument of
  `mempool_init`.
-/

namespace Mempool

/-- Block header `struct mmblockhead_s` (mempool.h 22-27). -/
structure mmblockhead_s where
  used : Bool
  prevp : Nat
  nextp : Nat
deriving DecidableEq

/-- Store: the header found at each address. -/
abbrev Memory := Nat → mmblockhead_s

/-- Pool control block `mempool_t` (mempool.h 46-57), mutex left out. -/
structure mempool_t where
  poolinited : Bool
  memusedp : Nat
  memfreedp : Nat
  membasep : Nat
  objsize : Nat
  blksize : Nat
  numblk : Nat
  totalsize : Nat
deriving DecidableEq

/-- Control block together with the store its pointers refer to. -/
structure State where
  pool : mempool_t
  mem : Memory

/-- Range of `uint32_t`. -/
def U32 : Nat := 2 ^ 32

/-- Assignment `a->prevp = v`. -/
def set_prevp (m : Memory) (a v : Nat) : Memory :=
  fun x => if x = a then { m x with prevp := v } else m x

/-- Assignment `a->nextp = v`. -/
def set_nextp (m : Memory) (a v : Nat) : Memory :=
  fun x => if x = a then { m x with nextp := v } else m x

/-- Assignment `a->used = v`. -/
def set_used (m : Memory) (a : Nat) (v : Bool) : Memory :=
  fun x => if x = a then { m x with used := v } else m x

/-- Effect of `memset(base, 0, len)` on the headers lying inside the region. -/
def memset_zero (hs : Nat) (m : Memory) (base len : Nat) : Memory :=
  fun x => if base ≤ x ∧ x + hs ≤ base + len then ⟨false, 0, 0⟩ else m x

/-- One iteration of the block loop of `mempool_init` (mempool.c 65-79);
the pair is `(poolp->memfreedp, store)`, `step` is `block_size + headsize`
as a `uint32_t`. -/
def init_block (base step : Nat) (st : Nat × Memory) (i : Nat) : Nat × Memory :=
  let cur_blkp := base + (i * step) % U32
  let m1 := set_prevp st.2 cur_blkp 0
  let m2 := set_nextp m1 cur_blkp st.1
  let m3 := set_used m2 cur_blkp false
  let m4 := if st.1 ≠ 0 then set_prevp m3 st.1 cur_blkp else m3
  (cur_blkp, m4)

/-- The block loop of `mempool_init`, `i = 0 .. num_blocks - 1`, started
with `memfreedp = NULL`. -/
def init_blocks (base step num_blocks : Nat) (m : Memory) : Nat × Memory :=
  (List.range num_blocks).foldl (init_block base step) (0, m)

/-- Body of `mempool_init` after the argument check (mempool.c 36-83) for a
non-null pool reference. `mallocp` is what `malloc(totalmem)` returns (`0` on
failure), `mutex_ok` tells whether `pthread_mutex_init` returned `0`. -/
def mempool_init_body (hs mallocp : Nat) (mutex_ok : Bool) (s : State)
    (num_blocks block_size : Nat) : Bool × State :=
  let totalmem := (num_blocks * ((block_size + hs) % U32)) % U32
  let p1 : mempool_t := { s.pool with poolinited := false, membasep := mallocp }
  if mallocp = 0 then (false, { s with pool := p1 })
  else if mutex_ok = false then (false, { s with pool := p1 })
  else
    let m0 := memset_zero hs s.mem mallocp totalmem
    let r := init_blocks mallocp ((block_size + hs) % U32) num_blocks m0
    (true,
      { pool :=
          { poolinited := true
            memusedp := 0
            memfreedp := r.1
            membasep := mallocp
            objsize := block_size
            blksize := (block_size + hs) % U32
            numblk := num_blocks
            totalsize := totalmem }
        mem := r.2 })

/-- Function `mempool_init` (mempool.c 21-84). A `NULL` pool reference is
`none`; `num_blocks`, `block_size` and `hs` stand for `uint32_t` values. -/
def mempool_init (hs mallocp : Nat) (mutex_ok : Bool) (poolp : Option State)
    (num_blocks block_size : Nat) : Bool × Option State :=
  match poolp with
  | none => (false, none)
  | some s =>
    if block_size = 0 ∨ num_blocks = 0 then (false, some s)
    else
      ((mempool_init_body hs mallocp mutex_ok s num_blocks block_size).1,
        some (mempool_init_body hs mallocp mutex_ok s num_blocks block_size).2)

/-- Function `mempool_alloc` (mempool.c 137-188) for a non-null pool
reference; the result is the returned address (`0` for `NULL`) and the new
state. -/
def mempool_alloc (hs : Nat) (s : State) : Nat × State :=
  if s.pool.poolinited then
    let cur_blkp := s.pool.memfreedp
    if cur_blkp ≠ 0 then
      let freedp := (s.mem cur_blkp).nextp
      let m1 := if freedp ≠ 0 then set_prevp s.mem freedp 0 else s.mem
      let m2 := set_prevp m1 cur_blkp 0
      let m3 := set_nextp m2 cur_blkp s.pool.memusedp
      let m4 := set_used m3 cur_blkp true
      (cur_blkp + hs,
        { pool := { s.pool with memfreedp := freedp, memusedp := cur_blkp }
          mem := m4 })
    else (0, s)
  else (0, s)

/-- Function `mempool_is_mem_valid` (mempool.c 203-234) for a non-null pool
reference. The header address `memp - sizeof(header)` is computed in the
integers; inside the range test the offset from the base is non-negative.
The index test is kept as written, `index >= 0 || index < numblk`. Where the
C code would divide by `blksize = 0`, `%` returns the offset and `/` returns
`0` here. -/
def mempool_is_mem_valid (hs : Nat) (p : mempool_t) (memp : Nat) : Bool :=
  if memp = 0 then false
  else
    let blkp : Int := (memp : Int) - (hs : Int)
    if (p.membasep : Int) ≤ blkp ∧ blkp < (p.membasep : Int) + (p.totalsize : Int) then
      let off : Nat := (blkp - (p.membasep : Int)).toNat
      if off % p.blksize = 0 ∧ (off / p.blksize ≥ 0 ∨ off / p.blksize < p.numblk) then true
      else false
    else false

/-- Unlinking of `cur_blkp` from the used list in `mempool_rel`
(mempool.c 294-309). -/
def rel_unlink (s : State) (cur_blkp : Nat) : State :=
  if (s.mem cur_blkp).prevp ≠ 0 then
    let m1 := set_nextp s.mem (s.mem cur_blkp).prevp (s.mem cur_blkp).nextp
    let m2 := set_prevp m1 (m1 cur_blkp).nextp (m1 cur_blkp).prevp
    { s with mem := m2 }
  else
    let usedp := (s.mem cur_blkp).nextp
    { pool := { s.pool with memusedp := usedp }
      mem := if usedp ≠ 0 then set_prevp s.mem usedp 0 else s.mem }

/-- Pushing `cur_blkp` on the free list in `mempool_rel` (mempool.c 311-319). -/
def rel_push (s : State) (cur_blkp : Nat) : State :=
  let m1 := set_prevp s.mem cur_blkp 0
  let m2 := set_nextp m1 cur_blkp s.pool.memfreedp
  let m3 := set_used m2 cur_blkp false
  let m4 := if s.pool.memfreedp ≠ 0 then set_prevp m3 s.pool.memfreedp cur_blkp else m3
  { pool := { s.pool with memfreedp := cur_blkp }, mem := m4 }

/-- Function `mempool_rel` (mempool.c 249-328) for a non-null pool reference.
The test of `poolinited` (262-266) only prints and does not return. -/
def mempool_rel (hs : Nat) (s : State) (memp : Nat) : Bool × State :=
  if memp = 0 then (false, s)
  else if mempool_is_mem_valid hs s.pool memp = false then (false, s)
  else
    let cur_blkp : Nat := ((memp : Int) - (hs : Int)).toNat
    if cur_blkp = 0 ∨ (s.mem cur_blkp).used = false then (false, s)
    else (true, rel_push (rel_unlink s cur_blkp) cur_blkp)

/-- Function `mempool_destroy` (mempool.c 97-124) for a non-null pool
reference. -/
def mempool_destroy (s : State) : State :=
  { s with
    pool :=
      { poolinited := false
        memusedp := 0
        memfreedp := 0
        membasep := if s.pool.poolinited then 0 else s.pool.membasep
        objsize := 0
        blksize := 0
        numblk := 0
        totalsize := 0 } }

/-! ## Observations on a state -/

/-- Addresses met when following `nextp` from `p`, at most `fuel` of them. -/
def list_from (m : Memory) : Nat → Nat → List Nat
  | 0, _ => []
  | fuel + 1, p => if p = 0 then [] else p :: list_from m fuel (m p).nextp

/-- Free list: from `memfreedp` through `nextp`. With `numblk + 1` steps a
list of the pool that ends in `NULL` is walked to its end. -/
def free_list (s : State) : List Nat :=
  list_from s.mem (s.pool.numblk + 1) s.pool.memfreedp

/-- Used list: from `memusedp` through `nextp`. -/
def used_list (s : State) : List Nat :=
  list_from s.mem (s.pool.numblk + 1) s.pool.memusedp

/-- Address of the header of block `i`. -/
def block_addr (p : mempool_t) (i : Nat) : Nat := p.membasep + i * p.blksize

/-- Header addresses of all blocks of the pool, block `0` first. -/
def blocks (p : mempool_t) : List Nat := (List.range p.numblk).map (block_addr p)

/-- All-zero control block (`mempool_t tpool = {0}`). -/
def zero_pool : mempool_t := ⟨false, 0, 0, 0, 0, 0, 0, 0⟩

/-- Store holding zero headers everywhere. -/
def zero_mem : Memory := fun _ => ⟨false, 0, 0⟩

/-- The `k` first results of repeated `mempool_alloc` and the state after
them. -/
def alloc_many (hs : Nat) : Nat → State → List Nat × State
  | 0, s => ([], s)
  | k + 1, s =>
    let r := mempool_alloc hs s
    let rest := alloc_many hs k r.2
    (r.1 :: rest.1, rest.2)

/-- Releases the addresses of `ps` in the order given: the results of the
calls of `mempool_rel` and the state after them. -/
def rel_many (hs : Nat) : State → List Nat → List Bool × State
  | s, [] => ([], s)
  | s, p :: ps =>
    let r := mempool_rel hs s p
    let rest := rel_many hs r.2 ps
    (r.1 :: rest.1, rest.2)

/-! ## Predicates used in the proofs -/

/-- The list `l` is what following `nextp` from `p` in store `m` visits
before reaching `NULL`. -/
def Chain (m : Memory) : Nat → List Nat → Prop
  | p, [] => p = 0
  | p, a :: l => p = a ∧ a ≠ 0 ∧ Chain m (m a).nextp l

/-- Header addresses `base + i * b`, `i = k - 1` down to `0`. -/
def desc_blocks (base b k : Nat) : List Nat :=
  ((List.range k).map fun i => base + i * b).reverse


/-- What the block loop has built after `k` iterations when no offset
wraps: head of the list, the three fields of every block written so far. -/
structure InitSpec (base b k : Nat) (r : Nat × Memory) : Prop where
  head : r.1 = if k = 0 then 0 else base + (k - 1) * b
  used : ∀ i, i < k → (r.2 (base + i * b)).used = false
  nextp : ∀ i, i < k → (r.2 (base + i * b)).nextp = if i = 0 then 0 else base + (i - 1) * b
  prevp : ∀ i, i < k → (r.2 (base + i * b)).prevp = if i + 1 < k then base + (i + 1) * b else 0


/-- State of a pool right after a successful `mempool_init` whose size
computations did not wrap. -/
structure Fresh (hs mallocp n bs : Nat) (s : State) : Prop where
  base_ne : mallocp ≠ 0
  n_pos : 0 < n
  bs_pos : 0 < bs
  inited : s.pool.poolinited = true
  usedp : s.pool.memusedp = 0
  basep : s.pool.membasep = mallocp
  objsize : s.pool.objsize = bs
  blksize : s.pool.blksize = hs + bs
  numblk : s.pool.numblk = n
  totalsize : s.pool.totalsize = n * (hs + bs)
  chain : Chain s.mem s.pool.memfreedp (desc_blocks mallocp (hs + bs) n)
  unused : ∀ i, i < n → (s.mem (mallocp + i * (hs + bs))).used = false


/-! ## Concrete states -/

/-- Zeroed control block over a zeroed store (`mempool_t tpool = {0}`). -/
def start_state : State := ⟨zero_pool, zero_mem⟩

/-- Pool of `n` blocks of `bs` bytes set up by `mempool_init` with a header
of 24 bytes and the arena at address 4096. -/
def fresh_state (n bs : Nat) : State :=
  (mempool_init_body 24 4096 true start_state n bs).2

/-- Pool of three blocks of 8 bytes (headers at 4096, 4128, 4160) after two
allocations: first 4184, then 4152. -/
def two_allocated : State :=
  (alloc_many 24 2 (fresh_state 3 8)).2

/-- Pool of ten blocks of 256 bytes after ten allocations. -/
def ten_allocated : List Nat × State :=
  alloc_many 24 10 (fresh_state 10 256)

/-- Store whose bytes at 8192 are not zero: memory that `malloc` hands out
is not initialised. -/
def stale_mem : Memory := set_used zero_mem 8192 true

/-- One-block pool set up at 4096 over `stale_mem`. -/
def inited_over_stale : State :=
  (mempool_init_body 24 4096 true ⟨zero_pool, stale_mem⟩ 1 8).2

/-- The pool `inited_over_stale` after a second `mempool_init` in which
`malloc` returned 8192 and `pthread_mutex_init` failed. -/
def reinit_failed : State :=
  (mempool_init_body 24 8192 false inited_over_stale 1 8).2

/-- Result of `mempool_init` for two blocks of `2^32 - 24` bytes with a
24-byte header: `block_size + headsize` wraps to `0`. -/
def wrapped_state : State :=
  (mempool_init_body 24 4096 true start_state 2 4294967272).2

/-! ## Call sequences -/

/-- One call on the pool: `mempool_alloc()` or `mempool_rel(memp)`. -/
inductive Op where
  | alloc : Op
  | rel : Nat → Op

/-- One call on a state that carries the list of outstanding addresses: an
address joins the list when `mempool_alloc` returns it (non-null) and leaves
it when `mempool_rel` of it returns TRUE. -/
def step (hs : Nat) (c : State × List Nat) : Op → State × List Nat
  | Op.alloc =>
    ((mempool_alloc hs c.1).2,
      if (mempool_alloc hs c.1).1 = 0 then c.2 else (mempool_alloc hs c.1).1 :: c.2)
  | Op.rel memp =>
    ((mempool_rel hs c.1 memp).2,
      if (mempool_rel hs c.1 memp).1 = true then c.2.filter (fun q => q ≠ memp) else c.2)

/-- A finite sequence of calls, first call first. -/
def run (hs : Nat) (c : State × List Nat) (ops : List Op) : State × List Nat :=
  ops.foldl (step hs) c

/-- What holds of a pool of `n` blocks of `bs` bytes at `base`, and of the
list `out` of outstanding addresses, after any sequence of calls when the
size computations of `mempool_init` did not wrap. -/
structure Inv (hs base n bs : Nat) (s : State) (out : List Nat) : Prop where
  base_ne : base ≠ 0
  bs_pos : 0 < bs
  inited : s.pool.poolinited = true
  basep : s.pool.membasep = base
  blksize : s.pool.blksize = hs + bs
  numblk : s.pool.numblk = n
  totalsize : s.pool.totalsize = n * (hs + bs)
  free : ∃ F, Chain s.mem s.pool.memfreedp F ∧ F.Nodup ∧
    (∀ x, x ∈ F ↔ x ∈ desc_blocks base (hs + bs) n ∧ (s.mem x).used = false) ∧
    F.length + out.length = n
  prev0 : ∀ x, x ∈ desc_blocks base (hs + bs) n → (s.mem x).used = true →
    (s.mem x).prevp = 0
  out_nodup : out.Nodup
  out_mem : ∀ q, q ∈ out ↔
    ∃ x, x ∈ desc_blocks base (hs + bs) n ∧ (s.mem x).used = true ∧ q = x + hs

/-! ## More concrete states -/

/-- Zeroed pool after a `mempool_init` in which `malloc` returned 8192 and
`pthread_mutex_init` failed. -/
def mutex_failed : State :=
  (mempool_init_body 24 8192 false start_state 1 8).2

/-- Result of `mempool_init` for three blocks of `1431655742` bytes with a
24-byte header: the block size is `1431655766` and three times that wraps
to `2`. -/
def product_wrapped : State :=
  (mempool_init_body 24 4096 true start_state 3 1431655742).2

/-! ## Branches of `mempool_rel` and calls on any pool -/

/-- Whether `mempool_rel(memp)` runs the branch commented "This is a node in
the middle" (mempool.c 295-300): the pointer is accepted and the header has
`prevp != NULL`. -/
def rel_middle (hs : Nat) (s : State) (memp : Nat) : Bool :=
  if memp = 0 then false
  else if mempool_is_mem_valid hs s.pool memp = false then false
  else
    let cur_blkp : Nat := ((memp : Int) - (hs : Int)).toNat
    if cur_blkp = 0 ∨ (s.mem cur_blkp).used = false then false
    else if (s.mem cur_blkp).prevp ≠ 0 then true
    else false

/-- Whether `mempool_rel(memp)` dereferences a null link: in the branch of
the node in the middle `cur_blkp->nextp->prevp` is assigned with no test of
`cur_blkp->nextp` (mempool.c 299); every other link is tested first. -/
def rel_null_deref (hs : Nat) (s : State) (memp : Nat) : Bool :=
  if rel_middle hs s memp = true then
    if (s.mem ((memp : Int) - (hs : Int)).toNat).nextp = 0 then true else false
  else false

/-- Whether `mempool_is_mem_valid(memp)` reaches the test that takes the
modulus and the quotient by `blksize` (mempool.c 224-226): `memp` is not
null and the header address passes the range test. -/
def is_mem_valid_divides (hs : Nat) (p : mempool_t) (memp : Nat) : Bool :=
  if memp = 0 then false
  else
    let blkp : Int := (memp : Int) - (hs : Int)
    if (p.membasep : Int) ≤ blkp ∧ blkp < (p.membasep : Int) + (p.totalsize : Int) then true
    else false

/-- One call of the pool interface on a valid pool reference. -/
inductive Call where
  | init : Nat → Bool → Nat → Nat → Call
  | alloc : Call
  | rel : Nat → Call
  | destroy : Call

/-- State after one call; `Call.init mallocp mutex_ok n bs` is
`mempool_init(&pool, n, bs)` with the answers of `malloc` and
`pthread_mutex_init`. -/
def call_step (hs : Nat) (s : State) : Call → State
  | Call.init mallocp mutex_ok n bs =>
    match (mempool_init hs mallocp mutex_ok (some s) n bs).2 with
    | some s1 => s1
    | none => s
  | Call.alloc => (mempool_alloc hs s).2
  | Call.rel memp => (mempool_rel hs s memp).2
  | Call.destroy => mempool_destroy s

/-- State after a finite sequence of calls, first call first. -/
def run_calls (hs : Nat) (s : State) (cs : List Call) : State :=
  cs.foldl (call_step hs) s

/-- Result of `mempool_init` for six blocks of `2^30 - 24` bytes with a
24-byte header: the block size is `2^30`, six times that wraps to `2^31`,
and blocks 4 and 5 have the addresses of blocks 0 and 1. -/
def period_wrapped : State :=
  (mempool_init_body 24 4096 true start_state 6 1073741800).2

/-- The pool `period_wrapped` after four allocations and the release of
4120, the payload of block 0. -/
def period_released : State :=
  (run 24 (period_wrapped, [])
    [Op.alloc, Op.alloc, Op.alloc, Op.alloc, Op.rel 4120]).1

end Mempool

/-!
# Messaging layer (`src/message.c`)

The client table `cidtable` is a map from index to control block; indices
`0 .. 254` are the 255 entries of the array, larger indices stand for the
memory behind it. A semaphore is its counter; `sem_post` adds one and
returns `0` while the counter is below `SEM_VALUE_MAX`, and returns `-1`
with the counter unchanged at that value. `SEM_VALUE_MAX` comes from the C
library and is the parameter `sem_value_max`. Whether `sem_init` succeeds is
an argument of the operations that call it. An operation that would wait on
a semaphore whose counter is `0` has no result.
-/

namespace Message

/-- Client control block `struct client_ctrl_s` (message.c 30-36); `sema`
is the counter of the semaphore, `datap` the mailbox (`0` is `NULL`). -/
structure client_ctrl_s where
  valid : Bool
  tid : Nat
  sema : Nat
  datap : Nat
deriving DecidableEq

/-- The static table `cidtable`. -/
abbrev Table := Nat → client_ctrl_s

/-- Macro `MAX_CLIENT_255` (message.c 12). -/
def MAX_CLIENT_255 : Nat := 255

/-- Number of entries of `cidtable[255]` (message.c 43). -/
def CIDTABLE_LEN : Nat := 255

/-- Macro `SUCCESS` (message.c 14). -/
def SUCCESS : Int := 0

/-- Macro `ERROR` (message.c 15). -/
def ERROR : Int := -1

/-- Value that `recv` can store through its second argument, or a message
pointer to compare it with. -/
inductive pointer where
  | message : Nat → pointer
  | datap_field : Nat → pointer
deriving DecidableEq

/-- Table with all entries zero (`cidtable[255] = {0}`). -/
def zero_table : Table := fun _ => ⟨false, 0, 0, 0⟩

/-- Function `client_find` (message.c 59-69): the index of the entry found,
`none` for `NULL`. -/
def client_find (t : Table) (client_id : Nat) : Option Nat :=
  if client_id ≤ MAX_CLIENT_255 ∧ (t client_id).valid = true then some client_id else none

/-- Indices at which `client_find` reads `cidtable`: the second operand of
`&&` is evaluated when the first holds. -/
def client_find_reads (client_id : Nat) : List Nat :=
  if client_id ≤ MAX_CLIENT_255 then [client_id] else []

/-- Function `signal_reg` (message.c 109-130). -/
def signal_reg (sem_init_ok : Bool) (t : Table) (client_id thread_id : Nat) : Int × Table :=
  if (t client_id).valid = false ∨ thread_id ≠ (t client_id).tid then
    if sem_init_ok then
      (SUCCESS, fun i =>
        if i = client_id then { t i with sema := 0, tid := thread_id, valid := true } else t i)
    else (ERROR, t)
  else (ERROR, t)

/-- Library call `sem_post` on a counter: status and new counter. Below
`sem_value_max` the counter goes up by one and the status is `0`; at
`sem_value_max` the counter is unchanged and the status is `-1`
(`EOVERFLOW`). -/
def sem_post (sem_value_max count : Nat) : Int × Nat :=
  if count < sem_value_max then (0, count + 1) else (-1, count)

/-- Function `signal_send` (message.c 144-153): the status is the one
`sem_post` returns. -/
def signal_send (sem_value_max : Nat) (t : Table) (client : Option Nat) : Int × Table :=
  match client with
  | some c =>
    ((sem_post sem_value_max (t c).sema).1,
      fun i => if i = c then { t i with sema := (sem_post sem_value_max (t i).sema).2 } else t i)
  | none => (ERROR, t)

/-- Function `signal_wait` (message.c 169-186); `none` when `sem_wait` does
not return because the counter is `0`. -/
def signal_wait (t : Table) (client : Option Nat) : Option (Int × Table) :=
  match client with
  | none => some (ERROR, t)
  | some c =>
    if (t c).valid = false then some (ERROR, t)
    else if (t c).sema = 0 then none
    else some (SUCCESS, fun i => if i = c then { t i with sema := (t i).sema - 1 } else t i)

/-- Function `send` (message.c 241-265). -/
def send (sem_value_max : Nat) (t : Table) (destination_id msg : Nat) : Int × Table :=
  if msg = 0 then (ERROR, t)
  else
    match client_find t destination_id with
    | none => (ERROR, t)
    | some c =>
      signal_send sem_value_max
        (fun i => if i = c then { t i with datap := msg } else t i) (some c)

/-- End of `recv` (message.c 299-309): wait on the client found and store
`&client->datap`. The result is the status, what was stored through `msg`
and the table. -/
def recv_wait (t : Table) (client : Option Nat) : Option (Int × Option pointer × Table) :=
  match client with
  | none => some (ERROR, none, t)
  | some c =>
    match signal_wait t (some c) with
    | none => none
    | some r =>
      if r.1 = SUCCESS then some (SUCCESS, some (pointer.datap_field c), r.2)
      else some (ERROR, none, r.2)

/-- Function `recv` (message.c 279-310); `self_tid` is what `pthread_self()`
returns. -/
def recv (sem_init_ok : Bool) (self_tid : Nat) (t : Table) (receiver_id : Nat) :
    Option (Int × Option pointer × Table) :=
  match client_find t receiver_id with
  | some c => recv_wait t (some c)
  | none =>
    if (signal_reg sem_init_ok t receiver_id self_tid).1 ≠ SUCCESS then
      some (ERROR, none, (signal_reg sem_init_ok t receiver_id self_tid).2)
    else
      recv_wait (signal_reg sem_init_ok t receiver_id self_tid).2
        (client_find (signal_reg sem_init_ok t receiver_id self_tid).2 receiver_id)

/-- What the receiver reads through a stored pointer. -/
def deref (t : Table) : pointer → Nat
  | pointer.message a => a
  | pointer.datap_field c => (t c).datap

/-- Calls `send(destination_id, m)` for the messages of `ms` in order: the
statuses returned and the table after them. -/
def send_many (sem_value_max : Nat) (t : Table) (destination_id : Nat) :
    List Nat → List Int × Table
  | [] => ([], t)
  | m :: ms =>
    ((send sem_value_max t destination_id m).1 ::
        (send_many sem_value_max (send sem_value_max t destination_id m).2 destination_id ms).1,
      (send_many sem_value_max (send sem_value_max t destination_id m).2 destination_id ms).2)

/-- Table in which client 5 was registered by thread 77. -/
def registered_5 : Table := (signal_reg true zero_table 5 77).2

/-- Table whose 255 entries are zero while the memory behind the array
reads as an entry with `valid = TRUE`. -/
def behind_valid : Table := fun i => if i = 255 then ⟨true, 0, 0, 0⟩ else ⟨false, 0, 0, 0⟩

/-- Value of `SEM_VALUE_MAX` used in the concrete runs (`INT_MAX`). -/
def SEM_MAX_RUN : Nat := 2147483647

/-- Table in which client 5 is registered by thread 77 and its semaphore
counter has reached `SEM_MAX_RUN`. -/
def full_5 : Table :=
  fun i => if i = 5 then ⟨true, 77, 2147483647, 0⟩ else ⟨false, 0, 0, 0⟩

end Message

namespace Mempool

/-! ## Lemmas -/

/-! ## Reading the store after an assignment -/

@[simp] theorem set_prevp_prevp (m : Memory) (a v x : Nat) :
    (set_prevp m a v x).prevp = if x = a then v else (m x).prevp := by
  unfold set_prevp; split <;> rfl

@[simp] theorem set_prevp_nextp (m : Memory) (a v x : Nat) :
    (set_prevp m a v x).nextp = (m x).nextp := by
  unfold set_prevp; split <;> rfl

@[simp] theorem set_prevp_used (m : Memory) (a v x : Nat) :
    (set_prevp m a v x).used = (m x).used := by
  unfold set_prevp; split <;> rfl

@[simp] theorem set_nextp_prevp (m : Memory) (a v x : Nat) :
    (set_nextp m a v x).prevp = (m x).prevp := by
  unfold set_nextp; split <;> rfl

@[simp] theorem set_nextp_nextp (m : Memory) (a v x : Nat) :
    (set_nextp m a v x).nextp = if x = a then v else (m x).nextp := by
  unfold set_nextp; split <;> rfl

@[simp] theorem set_nextp_used (m : Memory) (a v x : Nat) :
    (set_nextp m a v x).used = (m x).used := by
  unfold set_nextp; split <;> rfl

@[simp] theorem set_used_prevp (m : Memory) (a x : Nat) (v : Bool) :
    (set_used m a v x).prevp = (m x).prevp := by
  unfold set_used; split <;> rfl

@[simp] theorem set_used_nextp (m : Memory) (a x : Nat) (v : Bool) :
    (set_used m a v x).nextp = (m x).nextp := by
  unfold set_used; split <;> rfl

@[simp] theorem set_used_used (m : Memory) (a x : Nat) (v : Bool) :
    (set_used m a v x).used = if x = a then v else (m x).used := by
  unfold set_used; split <;> rfl

/-! ## The block loop of `mempool_init` -/

theorem mul_step_le {i k : Nat} (b : Nat) (h : i < k) : i * b + b ≤ k * b := by
  have h1 : (i + 1) * b ≤ k * b := Nat.mul_le_mul_right b h
  rw [Nat.succ_mul] at h1
  exact h1

theorem init_blocks_succ (base step k : Nat) (m : Memory) :
    init_blocks base step (k + 1) m = init_block base step (init_blocks base step k m) k := by
  unfold init_blocks
  rw [List.range_succ, List.foldl_append]
  rfl

theorem init_blocks_spec (base b : Nat) (m : Memory) (hbase : base ≠ 0) (hb : 0 < b) :
    ∀ k, k * b < U32 → InitSpec base b k (init_blocks base b k m) := by
  intro k
  induction k with
  | zero =>
    intro _
    refine ⟨rfl, ?_, ?_, ?_⟩ <;> intro i hi <;> omega
  | succ k ih =>
    intro hk
    have hk' : k * b < U32 := by
      have h1 : (k + 1) * b = k * b + b := Nat.succ_mul k b
      omega
    have hs := ih hk'
    rw [init_blocks_succ]
    generalize init_blocks base b k m = r at hs
    obtain ⟨f, m'⟩ := r
    have hmod : (k * b) % U32 = k * b := Nat.mod_eq_of_lt hk'
    have hhead := hs.head
    have hused := hs.used
    have hnext := hs.nextp
    have hprev := hs.prevp
    simp only at hhead hused hnext hprev
    have hne : ∀ i, i < k → base + i * b ≠ base + k * b := by
      intro i hi
      have := mul_step_le b hi
      omega
    refine ⟨?_, ?_, ?_, ?_⟩
    · simp [init_block, hmod]
    · intro i hi
      simp only [init_block, hmod]
      by_cases hik : i = k
      · subst hik
        split <;> simp
      · have hi' : i < k := by omega
        split <;> simp [hne i hi', hused i hi']
    · intro i hi
      simp only [init_block, hmod]
      by_cases hik : i = k
      · subst hik
        split <;> simp [hhead]
      · have hi' : i < k := by omega
        split <;> simp [hne i hi', hnext i hi']
    · intro i hi
      simp only [init_block, hmod]
      by_cases hik : i = k
      · subst hik
        split
        · rename_i hf
          have hk0 : i ≠ 0 := by
            intro h0; subst h0; simp at hhead; exact hf hhead
          have hfe : f = base + (i - 1) * b := by simp [hhead, hk0]
          have := mul_step_le b (show i - 1 < i by omega)
          have hne2 : base + i * b ≠ f := by omega
          simp [hne2]
        · simp
      · have hi' : i < k := by omega
        have hk0 : k ≠ 0 := by omega
        have hfe : f = base + (k - 1) * b := by simp [hhead, hk0]
        have hf0 : f ≠ 0 := by omega
        simp only [hf0, ne_eq, not_false_eq_true, if_true]
        simp only [set_prevp_prevp, set_used_prevp, set_nextp_prevp, hne i hi', if_false]
        by_cases hlast : i + 1 = k
        · have : i = k - 1 := by omega
          subst this
          have e : k - 1 + 1 = k := by omega
          simp [hfe, e]
        · have h1 := mul_step_le b (show i < k - 1 by omega)
          have hx : base + i * b ≠ f := by omega
          have h2 : i + 1 < k := by omega
          simp [hx, hprev i hi', h2, hi']

theorem chain_congr {m m' : Memory} : ∀ (l : List Nat) (p : Nat),
    (∀ x, x ∈ l → (m' x).nextp = (m x).nextp) → Chain m p l → Chain m' p l := by
  intro l
  induction l with
  | nil => intro p _ h; exact h
  | cons a l ih =>
    intro p hx h
    obtain ⟨h1, h2, h3⟩ := h
    refine ⟨h1, h2, ?_⟩
    rw [hx a (List.mem_cons_self a l)]
    exact ih _ (fun x hxl => hx x (List.mem_cons_of_mem a hxl)) h3

theorem chain_list_from {m : Memory} : ∀ (l : List Nat) (p fuel : Nat),
    Chain m p l → l.length < fuel → list_from m fuel p = l := by
  intro l
  induction l with
  | nil =>
    intro p fuel h hf
    have hp : p = 0 := h
    subst hp
    cases fuel with
    | zero => rfl
    | succ f => simp [list_from]
  | cons a l ih =>
    intro p fuel h hf
    obtain ⟨h1, h2, h3⟩ := h
    subst h1
    cases fuel with
    | zero => simp at hf
    | succ f =>
      have hl : l.length < f := by simpa using hf
      simp [list_from, h2, ih _ f h3 hl]

theorem desc_blocks_succ (base b k : Nat) :
    desc_blocks base b (k + 1) = (base + k * b) :: desc_blocks base b k := by
  simp [desc_blocks, List.range_succ]

theorem mem_desc_blocks {base b k x : Nat} :
    x ∈ desc_blocks base b k ↔ ∃ i, i < k ∧ x = base + i * b := by
  simp only [desc_blocks, List.mem_reverse, List.mem_map, List.mem_range]
  constructor
  · rintro ⟨i, hi, rfl⟩; exact ⟨i, hi, rfl⟩
  · rintro ⟨i, hi, rfl⟩; exact ⟨i, hi, rfl⟩

theorem desc_blocks_length (base b k : Nat) : (desc_blocks base b k).length = k := by
  simp [desc_blocks]

theorem desc_blocks_nodup (base b k : Nat) (hb : 0 < b) : (desc_blocks base b k).Nodup := by
  unfold desc_blocks
  rw [List.nodup_reverse]
  refine List.Nodup.map ?_ (List.nodup_range k)
  intro i j hij
  have hij' : i * b = j * b := by simpa using hij
  exact Nat.eq_of_mul_eq_mul_right hb hij'

theorem init_chain {base b k : Nat} {r : Nat × Memory} (hbase : base ≠ 0)
    (hs : InitSpec base b k r) :
    ∀ j, j ≤ k → Chain r.2 (if j = 0 then 0 else base + (j - 1) * b) (desc_blocks base b j) := by
  intro j
  induction j with
  | zero => intro _; simp [desc_blocks, Chain]
  | succ j ih =>
    intro hj
    rw [desc_blocks_succ]
    refine ⟨by simp, by omega, ?_⟩
    rw [hs.nextp j (by omega)]
    exact ih (by omega)

theorem alloc_step (hs : Nat) (s : State) (a : Nat) (l : List Nat)
    (hinit : s.pool.poolinited = true)
    (hc : Chain s.mem s.pool.memfreedp (a :: l)) (ha : a ∉ l) :
    (mempool_alloc hs s).1 = a + hs ∧
    (mempool_alloc hs s).2.pool.poolinited = true ∧
    Chain (mempool_alloc hs s).2.mem (mempool_alloc hs s).2.pool.memfreedp l := by
  obtain ⟨h1, h2, h3⟩ := hc
  have hne : s.pool.memfreedp ≠ 0 := by rw [h1]; exact h2
  unfold mempool_alloc
  rw [if_pos hinit]
  simp only [if_pos hne]
  refine ⟨by rw [h1], hinit, ?_⟩
  rw [h1]
  refine chain_congr l _ ?_ h3
  intro x hx
  have hxa : x ≠ a := fun h => ha (h ▸ hx)
  split <;> simp [hxa]

theorem alloc_many_chain (hs : Nat) : ∀ (l : List Nat) (s : State),
    s.pool.poolinited = true → Chain s.mem s.pool.memfreedp l → l.Nodup →
    (alloc_many hs l.length s).1 = l.map (· + hs) ∧
    (alloc_many hs l.length s).2.pool.poolinited = true ∧
    (alloc_many hs l.length s).2.pool.memfreedp = 0 := by
  intro l
  induction l with
  | nil =>
    intro s hi hc _
    exact ⟨rfl, hi, hc⟩
  | cons a l ih =>
    intro s hi hc hnd
    obtain ⟨ha, hl⟩ := List.nodup_cons.mp hnd
    obtain ⟨h1, h2, h3⟩ := alloc_step hs s a l hi hc ha
    obtain ⟨g1, g2, g3⟩ := ih (mempool_alloc hs s).2 h2 h3 hl
    refine ⟨?_, g2, g3⟩
    simp only [List.length_cons, alloc_many, List.map_cons]
    rw [h1, g1]

theorem init_success {hs mallocp : Nat} {mutex_ok : Bool} {s0 s : State} {n bs : Nat}
    (h : mempool_init hs mallocp mutex_ok (some s0) n bs = (true, some s)) :
    bs ≠ 0 ∧ n ≠ 0 ∧ mallocp ≠ 0 ∧ mutex_ok = true ∧
    s = (mempool_init_body hs mallocp mutex_ok s0 n bs).2 := by
  unfold mempool_init at h
  simp only at h
  split at h
  · simp at h
  · rename_i hz
    have h1 := congrArg Prod.fst h
    have h2 := congrArg Prod.snd h
    simp only [Option.some.injEq] at h1 h2
    refine ⟨fun e => hz (Or.inl e), fun e => hz (Or.inr e), ?_, ?_, h2.symm⟩
    · intro e
      simp [mempool_init_body, e] at h1
    · cases mutex_ok
      · simp [mempool_init_body] at h1
      · rfl

theorem init_fresh {hs mallocp : Nat} {mutex_ok : Bool} {s0 s : State} {n bs : Nat}
    (h : mempool_init hs mallocp mutex_ok (some s0) n bs = (true, some s))
    (hrep : n * (hs + bs) < 2 ^ 32) : Fresh hs mallocp n bs s := by
  obtain ⟨hbs, hn, hmp, hmu, hs'⟩ := init_success h
  subst hmu
  have hn' : 0 < n := Nat.pos_of_ne_zero hn
  have hbs' : 0 < bs := Nat.pos_of_ne_zero hbs
  have hle : hs + bs ≤ n * (hs + bs) := Nat.le_mul_of_pos_left _ hn'
  have hU : U32 = 2 ^ 32 := rfl
  have e1 : (bs + hs) % U32 = hs + bs := by
    rw [Nat.add_comm bs hs]; exact Nat.mod_eq_of_lt (by omega)
  have e2 : (n * (hs + bs)) % U32 = n * (hs + bs) := Nat.mod_eq_of_lt (by omega)
  have hbody : (mempool_init_body hs mallocp true s0 n bs).2 =
      { pool :=
          { poolinited := true
            memusedp := 0
            memfreedp := (init_blocks mallocp (hs + bs) n
              (memset_zero hs s0.mem mallocp (n * (hs + bs)))).1
            membasep := mallocp
            objsize := bs
            blksize := hs + bs
            numblk := n
            totalsize := n * (hs + bs) }
        mem := (init_blocks mallocp (hs + bs) n
              (memset_zero hs s0.mem mallocp (n * (hs + bs)))).2 } := by
    simp [mempool_init_body, hmp, e1, e2]
  rw [hbody] at hs'
  have spec := init_blocks_spec mallocp (hs + bs)
    (memset_zero hs s0.mem mallocp (n * (hs + bs))) hmp (by omega) n (by omega)
  have hch := init_chain hmp spec n (Nat.le_refl n)
  subst hs'
  refine ⟨hmp, hn', hbs', rfl, rfl, rfl, rfl, rfl, rfl, rfl, ?_, ?_⟩
  · simp only
    rw [spec.head]
    exact hch
  · intro i hi
    exact spec.used i hi

theorem is_mem_valid_iff (hs : Nat) (p : mempool_t) (ptr : Nat) (hptr : ptr ≠ 0)
    (hb : 0 < p.blksize) (ht : p.totalsize = p.numblk * p.blksize) :
    mempool_is_mem_valid hs p ptr = true ↔
      ∃ i, i < p.numblk ∧ ptr = p.membasep + i * p.blksize + hs := by
  unfold mempool_is_mem_valid
  rw [if_neg hptr]
  simp only [ge_iff_le, Nat.zero_le, true_or, and_true]
  constructor
  · intro h
    split at h
    · rename_i hr
      split at h
      · rename_i hm
        have hge : p.membasep + hs ≤ ptr := by omega
        have hoff : ((ptr : Int) - (hs : Int) - (p.membasep : Int)).toNat = ptr - hs - p.membasep := by
          omega
        rw [hoff] at hm
        have hlt : ptr - hs - p.membasep < p.numblk * p.blksize := by omega
        refine ⟨(ptr - hs - p.membasep) / p.blksize, ?_, ?_⟩
        · exact (Nat.div_lt_iff_lt_mul hb).mpr hlt
        · have := Nat.div_mul_cancel (Nat.dvd_of_mod_eq_zero hm)
          omega
      · simp at h
    · simp at h
  · rintro ⟨i, hi, rfl⟩
    have h1 := mul_step_le p.blksize hi
    have hr : (p.membasep : Int) ≤ ((p.membasep + i * p.blksize + hs : Nat) : Int) - (hs : Int) ∧
        ((p.membasep + i * p.blksize + hs : Nat) : Int) - (hs : Int) <
          (p.membasep : Int) + (p.totalsize : Int) := by
      rw [ht]; push_cast; constructor <;> nlinarith
    rw [if_pos hr]
    have hoff : (((p.membasep + i * p.blksize + hs : Nat) : Int) - (hs : Int) -
        (p.membasep : Int)).toNat = i * p.blksize := by
      omega
    rw [hoff]
    simp

theorem rel_unlink_poolinited (s : State) (c : Nat) :
    (rel_unlink s c).pool.poolinited = s.pool.poolinited := by
  unfold rel_unlink
  split <;> rfl

theorem is_mem_valid_ge (hs : Nat) (p : mempool_t) (memp : Nat)
    (h : mempool_is_mem_valid hs p memp = true) :
    memp ≠ 0 ∧ p.membasep + hs ≤ memp ∧ memp < p.membasep + p.totalsize + hs := by
  unfold mempool_is_mem_valid at h
  split at h
  · simp at h
  · rename_i hne
    simp only at h
    split at h
    · rename_i hr
      refine ⟨hne, ?_, ?_⟩ <;> omega
    · simp at h

/-! ## Claims -/

/-- C1 (the code at a failing input): in a pool of three blocks, after two
allocations and the release of the address allocated first, the release has
returned TRUE, and the block of the second allocation still has
`used = TRUE` but is on neither the free list nor the used list. -/
theorem C1_block_on_neither_list :
    (alloc_many 24 2 (fresh_state 3 8)).1 = [4184, 4152] ∧
    (mempool_rel 24 two_allocated 4184).1 = true ∧
    4128 ∈ blocks (mempool_rel 24 two_allocated 4184).2.pool ∧
    ((mempool_rel 24 two_allocated 4184).2.mem 4128).used = true ∧
    4128 ∉ free_list (mempool_rel 24 two_allocated 4184).2 ∧
    4128 ∉ used_list (mempool_rel 24 two_allocated 4184).2 := by
  decide

/-- C2: in a state with `poolinited = TRUE`, when `mempool_rel(p)` returns
TRUE the `mempool_alloc` that follows immediately returns `p`. -/
theorem C2_release_then_alloc_returns_same (hs : Nat) (s s' : State) (p : Nat)
    (hinit : s.pool.poolinited = true)
    (hrel : mempool_rel hs s p = (true, s')) :
    (mempool_alloc hs s').1 = p := by
  unfold mempool_rel at hrel
  split at hrel
  · simp at hrel
  · split at hrel
    · simp at hrel
    · rename_i hp hv
      simp only at hrel
      split at hrel
      · simp at hrel
      · rename_i hc
        have hv' : mempool_is_mem_valid hs s.pool p = true := by
          cases hb : mempool_is_mem_valid hs s.pool p
          · exact absurd hb hv
          · rfl
        obtain ⟨_, hge, _⟩ := is_mem_valid_ge hs s.pool p hv'
        have hs' : s' = rel_push (rel_unlink s ((p : Int) - (hs : Int)).toNat) ((p : Int) - (hs : Int)).toNat := by
          simpa using (congrArg Prod.snd hrel).symm
        have hcur : ((p : Int) - (hs : Int)).toNat ≠ 0 := fun h0 => hc (Or.inl h0)
        have hi : s'.pool.poolinited = true := by
          rw [hs']; simp only [rel_push]; rw [rel_unlink_poolinited]; exact hinit
        have hf : s'.pool.memfreedp = ((p : Int) - (hs : Int)).toNat := by
          rw [hs']; rfl
        unfold mempool_alloc
        rw [if_pos hi, hf]
        simp only [if_pos hcur]
        omega

theorem C2_witness :
    two_allocated.pool.poolinited = true ∧
    (mempool_rel 24 two_allocated 4184).1 = true ∧
    (mempool_alloc 24 (mempool_rel 24 two_allocated 4184).2).1 = 4184 :=
  ⟨by decide, by decide,
    C2_release_then_alloc_returns_same 24 two_allocated
      (mempool_rel 24 two_allocated 4184).2 4184 (by decide) rfl⟩

/-- C3: on a pool that `mempool_init` set up successfully, with
`numBlocks * (headerSize + blockSize)` representable in 32 bits, the first
`numBlocks` calls of `mempool_alloc` return `numBlocks` non-null addresses
that are pairwise distinct, whose payload ranges `[p, p + blockSize)` are
pairwise disjoint and lie inside the arena, and the next call returns
`NULL`. -/
theorem C3_fresh_pool_allocs_all_blocks (hs mallocp : Nat) (mutex_ok : Bool)
    (s0 s : State) (n bs : Nat)
    (hinit : mempool_init hs mallocp mutex_ok (some s0) n bs = (true, some s))
    (hrep : n * (hs + bs) < 2 ^ 32) :
    (alloc_many hs n s).1.length = n ∧
    (∀ p, p ∈ (alloc_many hs n s).1 → p ≠ 0) ∧
    (alloc_many hs n s).1.Nodup ∧
    (alloc_many hs n s).1.Pairwise (fun p q => p + bs ≤ q ∨ q + bs ≤ p) ∧
    (∀ p, p ∈ (alloc_many hs n s).1 →
      s.pool.membasep ≤ p ∧ p + bs ≤ s.pool.membasep + s.pool.totalsize) ∧
    (mempool_alloc hs (alloc_many hs n s).2).1 = 0 := by
  have F := init_fresh hinit hrep
  have hb : 0 < hs + bs := by have := F.bs_pos; omega
  have hnd := desc_blocks_nodup mallocp (hs + bs) n hb
  have hlen := desc_blocks_length mallocp (hs + bs) n
  obtain ⟨h1, h2, h3⟩ := alloc_many_chain hs _ s F.inited F.chain hnd
  rw [hlen] at h1 h2 h3
  have hmem : ∀ p, p ∈ (alloc_many hs n s).1 →
      ∃ i, i < n ∧ p = mallocp + i * (hs + bs) + hs := by
    intro p hp
    rw [h1, List.mem_map] at hp
    obtain ⟨x, hx, rfl⟩ := hp
    obtain ⟨i, hi, rfl⟩ := mem_desc_blocks.mp hx
    exact ⟨i, hi, rfl⟩
  have hnodup : (alloc_many hs n s).1.Nodup := by
    rw [h1]
    exact List.Nodup.map (fun x y hxy => Nat.add_right_cancel hxy) hnd
  refine ⟨?_, ?_, hnodup, ?_, ?_, ?_⟩
  · rw [h1, List.length_map, hlen]
  · intro p hp
    obtain ⟨i, _, rfl⟩ := hmem p hp
    have := F.base_ne
    omega
  · refine List.Nodup.pairwise_of_forall_ne hnodup ?_
    intro p hp q hq hpq
    obtain ⟨i, _, rfl⟩ := hmem p hp
    obtain ⟨j, _, rfl⟩ := hmem q hq
    rcases Nat.lt_trichotomy i j with hij | hij | hij
    · have := mul_step_le (hs + bs) hij
      left; omega
    · subst hij; exact absurd rfl hpq
    · have := mul_step_le (hs + bs) hij
      right; omega
  · intro p hp
    obtain ⟨i, hi, rfl⟩ := hmem p hp
    have := mul_step_le (hs + bs) hi
    rw [F.basep, F.totalsize]
    constructor <;> omega
  · unfold mempool_alloc
    rw [if_pos h2]
    simp [h3]

theorem C3_witness :
    mempool_init 24 4096 true (some start_state) 10 256 = (true, some (fresh_state 10 256)) ∧
    10 * (24 + 256) < 2 ^ 32 ∧
    (alloc_many 24 10 (fresh_state 10 256)).1.length = 10 ∧
    (alloc_many 24 10 (fresh_state 10 256)).1.Nodup ∧
    (mempool_alloc 24 (alloc_many 24 10 (fresh_state 10 256)).2).1 = 0 :=
  have h := C3_fresh_pool_allocs_all_blocks 24 4096 true start_state (fresh_state 10 256)
    10 256 rfl (by decide)
  ⟨rfl, by decide, h.1, h.2.2.1, h.2.2.2.2.2⟩

/-- C4: on a pool that `mempool_init` set up successfully, with
`numBlocks * (headerSize + blockSize)` representable in 32 bits, and for a
non-null `ptr`, `mempool_is_mem_valid` answers TRUE exactly when
`ptr = base + i * blksize + headerSize` for some `i < numBlocks`; it answers
FALSE for the slot one past the end and for every address of a block other
than the start of its payload. -/
theorem C4_is_mem_valid_iff_payload_start (hs mallocp : Nat) (mutex_ok : Bool)
    (s0 s : State) (n bs : Nat)
    (hinit : mempool_init hs mallocp mutex_ok (some s0) n bs = (true, some s))
    (hrep : n * (hs + bs) < 2 ^ 32) (ptr : Nat) (hptr : ptr ≠ 0) :
    (s.pool.membasep = mallocp ∧ s.pool.blksize = hs + bs ∧ s.pool.numblk = n) ∧
    (mempool_is_mem_valid hs s.pool ptr = true ↔
      ∃ i, i < n ∧ ptr = s.pool.membasep + i * s.pool.blksize + hs) ∧
    mempool_is_mem_valid hs s.pool (s.pool.membasep + n * s.pool.blksize + hs) = false ∧
    (∀ i d, d < s.pool.blksize → d ≠ hs →
      mempool_is_mem_valid hs s.pool (s.pool.membasep + i * s.pool.blksize + d) = false) := by
  have F := init_fresh hinit hrep
  have hbs := F.bs_pos
  have hbase := F.base_ne
  have hb : 0 < s.pool.blksize := by rw [F.blksize]; omega
  have ht : s.pool.totalsize = s.pool.numblk * s.pool.blksize := by
    rw [F.totalsize, F.numblk, F.blksize]
  have key : ∀ q, q ≠ 0 → (mempool_is_mem_valid hs s.pool q = true ↔
      ∃ i, i < n ∧ q = s.pool.membasep + i * s.pool.blksize + hs) := by
    intro q hq
    have := is_mem_valid_iff hs s.pool q hq hb ht
    rw [F.numblk] at this
    exact this
  refine ⟨⟨F.basep, F.blksize, F.numblk⟩, key ptr hptr, ?_, ?_⟩
  · cases hv : mempool_is_mem_valid hs s.pool (s.pool.membasep + n * s.pool.blksize + hs)
    · rfl
    · exfalso
      obtain ⟨i, hi, he⟩ := (key _ (by rw [F.basep]; omega)).mp hv
      have := mul_step_le s.pool.blksize hi
      omega
  · intro i d hd hne
    cases hv : mempool_is_mem_valid hs s.pool (s.pool.membasep + i * s.pool.blksize + d)
    · rfl
    · exfalso
      obtain ⟨j, _, he⟩ := (key _ (by rw [F.basep]; omega)).mp hv
      have hhs : hs < s.pool.blksize := by rw [F.blksize]; omega
      rcases Nat.lt_trichotomy i j with hij | hij | hij
      · have := mul_step_le s.pool.blksize hij
        omega
      · subst hij; omega
      · have := mul_step_le s.pool.blksize hij
        omega

theorem C4_witness :
    mempool_init 24 4096 true (some start_state) 10 256 = (true, some (fresh_state 10 256)) ∧
    10 * (24 + 256) < 2 ^ 32 ∧
    (mempool_is_mem_valid 24 (fresh_state 10 256).pool 4400 = true ↔
      ∃ i, i < 10 ∧ 4400 = (fresh_state 10 256).pool.membasep +
        i * (fresh_state 10 256).pool.blksize + 24) :=
  ⟨rfl, by decide,
    (C4_is_mem_valid_iff_payload_start 24 4096 true start_state (fresh_state 10 256)
      10 256 rfl (by decide) 4400 (by decide)).2.1⟩

/-- C5 (the code at a failing input): with the used list `[4128, 4160]`,
releasing the valid, used block 4160 at its tail returns TRUE and leaves the
used list empty: block 4128, which was not released, is no longer on it. -/
theorem C5_release_of_tail_drops_head :
    used_list two_allocated = [4128, 4160] ∧
    free_list two_allocated = [4096] ∧
    mempool_is_mem_valid 24 two_allocated.pool 4184 = true ∧
    (two_allocated.mem 4160).used = true ∧
    (mempool_rel 24 two_allocated 4184).1 = true ∧
    used_list (mempool_rel 24 two_allocated 4184).2 = [] ∧
    free_list (mempool_rel 24 two_allocated 4184).2 = [4160, 4096] := by
  decide

/-- C6: when `p` is null, or `mempool_is_mem_valid` rejects it, or the header
in front of `p` has `used = FALSE`, `mempool_rel(p)` returns FALSE and the
state after the call is the state before it. -/
theorem C6_release_rejected_leaves_state (hs : Nat) (s : State) (p : Nat)
    (h : p = 0 ∨ mempool_is_mem_valid hs s.pool p = false ∨
      (s.mem ((p : Int) - (hs : Int)).toNat).used = false) :
    mempool_rel hs s p = (false, s) := by
  unfold mempool_rel
  split
  · rfl
  · split
    · rfl
    · simp only
      split
      · rfl
      · rename_i hp hv hc
        rcases h with h | h | h
        · exact absurd h hp
        · exact absurd h hv
        · exact absurd (Or.inr h) hc

theorem C6_witness :
    (two_allocated.mem ((4120 : Int) - (24 : Int)).toNat).used = false ∧
    mempool_rel 24 two_allocated 4120 = (false, two_allocated) :=
  ⟨by decide,
    C6_release_rejected_leaves_state 24 two_allocated 4120 (Or.inr (Or.inr (by decide)))⟩

/-- C7 (the code at a failing input): a pool set up once and then put through
a second `mempool_init` that fails at the mutex has `poolinited = FALSE`, the
new base address and the sizes of the first set-up; `mempool_rel` on the
first payload address of the new arena returns TRUE and moves the free-list
head. -/
theorem C7_release_on_uninitialized_pool_mutates :
    mempool_init 24 8192 false (some inited_over_stale) 1 8 = (false, some reinit_failed) ∧
    reinit_failed.pool.poolinited = false ∧
    reinit_failed.pool.memfreedp = 4096 ∧
    (mempool_rel 24 reinit_failed 8216).1 = true ∧
    (mempool_rel 24 reinit_failed 8216).2.pool.memfreedp = 8192 ∧
    ((mempool_rel 24 reinit_failed 8216).2.mem 8192).used = false ∧
    (reinit_failed.mem 8192).used = true :=
  ⟨rfl, by decide, by decide, by decide, by decide, by decide, by decide⟩

/-- C8 as stated fails: for two blocks of `2^32 - 24` bytes and a 24-byte
header the 32-bit block size is `0`, `mempool_init` returns TRUE, both blocks
have the same address and the free list is a cycle through it. -/
theorem C8_counterexample :
    mempool_init 24 4096 true (some start_state) 2 4294967272 = (true, some wrapped_state) ∧
    wrapped_state.pool.blksize = 0 ∧
    blocks wrapped_state.pool = [4096, 4096] ∧
    (wrapped_state.mem 4096).nextp = 4096 ∧
    free_list wrapped_state = [4096, 4096, 4096] ∧
    ¬ (blocks wrapped_state.pool).Nodup :=
  ⟨rfl, by decide, by decide, by decide, by decide, by decide⟩

/-- C8 (amended): for `numBlocks > 0`, `blockSize > 0` with
`numBlocks * (headerSize + blockSize)` representable in 32 bits, when the
arena allocation and the mutex construction succeed, `mempool_init` returns
TRUE, the pool is marked initialized, the free list holds each of the
`numBlocks` blocks of the arena exactly once, every block has
`used = FALSE`, and the used list is empty. -/
theorem C8_init_all_blocks_free (hs mallocp : Nat) (s0 : State) (n bs : Nat)
    (hn : 0 < n) (hbs : 0 < bs) (hmalloc : mallocp ≠ 0)
    (hrep : n * (hs + bs) < 2 ^ 32) :
    ∃ s, mempool_init hs mallocp true (some s0) n bs = (true, some s) ∧
      s.pool.poolinited = true ∧
      s.pool.numblk = n ∧
      (blocks s.pool).length = n ∧
      (blocks s.pool).Nodup ∧
      free_list s = (blocks s.pool).reverse ∧
      (∀ a, a ∈ blocks s.pool → (s.mem a).used = false) ∧
      used_list s = [] := by
  have hinit : mempool_init hs mallocp true (some s0) n bs =
      (true, some (mempool_init_body hs mallocp true s0 n bs).2) := by
    have h1 : ¬ (bs = 0 ∨ n = 0) := by omega
    simp [mempool_init, h1, mempool_init_body, hmalloc]
  refine ⟨_, hinit, ?_⟩
  have F := init_fresh hinit hrep
  generalize (mempool_init_body hs mallocp true s0 n bs).2 = s at F
  have hblocks : blocks s.pool = (desc_blocks mallocp (hs + bs) n).reverse := by
    simp [blocks, desc_blocks, block_addr, F.numblk, F.basep, F.blksize]
  have hnd := desc_blocks_nodup mallocp (hs + bs) n (by omega)
  refine ⟨F.inited, F.numblk, ?_, ?_, ?_, ?_, ?_⟩
  · rw [hblocks, List.length_reverse, desc_blocks_length]
  · rw [hblocks, List.nodup_reverse]; exact hnd
  · rw [hblocks, List.reverse_reverse]
    unfold free_list
    refine chain_list_from _ _ _ F.chain ?_
    rw [desc_blocks_length, F.numblk]
    exact Nat.lt_succ_self n
  · intro a ha
    rw [hblocks, List.mem_reverse] at ha
    obtain ⟨i, hi, rfl⟩ := mem_desc_blocks.mp ha
    exact F.unused i hi
  · unfold used_list
    rw [F.usedp]
    rfl

theorem C8_witness :
    ∃ s, mempool_init 24 4096 true (some start_state) 10 256 = (true, some s) ∧
      s.pool.poolinited = true ∧
      s.pool.numblk = 10 ∧
      (blocks s.pool).length = 10 ∧
      (blocks s.pool).Nodup ∧
      free_list s = (blocks s.pool).reverse ∧
      (∀ a, a ∈ blocks s.pool → (s.mem a).used = false) ∧
      used_list s = [] :=
  C8_init_all_blocks_free 24 4096 start_state 10 256 (by decide) (by decide) (by decide)
    (by decide)

/-- C9 as stated fails: `mempool_init` with `numBlocks = 0` on a pool that is
initialized returns FALSE and the pool is still initialized. -/
theorem C9_counterexample :
    (fresh_state 3 8).pool.poolinited = true ∧
    mempool_init 24 8192 true (some (fresh_state 3 8)) 0 8 = (false, some (fresh_state 3 8)) :=
  ⟨by decide, rfl⟩

/-- C9 (amended): `mempool_init` returns FALSE for a null pool reference; for
`numBlocks = 0` or `blockSize = 0` it returns FALSE and leaves the pool as it
was; with valid arguments, when the arena allocation or the mutex
construction fails it returns FALSE and `poolinited` is FALSE afterwards; in
all other cases in which `numBlocks * (headerSize + blockSize)` is
representable in 32 bits it returns TRUE and `poolinited` is TRUE. -/
theorem C9_init_outcomes (hs mallocp : Nat) (mutex_ok : Bool) (s0 : State) (n bs : Nat) :
    mempool_init hs mallocp mutex_ok none n bs = (false, none) ∧
    ((n = 0 ∨ bs = 0) →
      mempool_init hs mallocp mutex_ok (some s0) n bs = (false, some s0)) ∧
    (n ≠ 0 → bs ≠ 0 → (mallocp = 0 ∨ mutex_ok = false) →
      ∃ s, mempool_init hs mallocp mutex_ok (some s0) n bs = (false, some s) ∧
        s.pool.poolinited = false) ∧
    (n ≠ 0 → bs ≠ 0 → mallocp ≠ 0 → mutex_ok = true → n * (hs + bs) < 2 ^ 32 →
      ∃ s, mempool_init hs mallocp mutex_ok (some s0) n bs = (true, some s) ∧
        s.pool.poolinited = true) := by
  refine ⟨rfl, ?_, ?_, ?_⟩
  · intro h
    have h' : bs = 0 ∨ n = 0 := h.symm
    simp [mempool_init, h']
  · intro hn hbs h
    have h' : ¬ (bs = 0 ∨ n = 0) := by omega
    refine ⟨(mempool_init_body hs mallocp mutex_ok s0 n bs).2, ?_, ?_⟩
    · rcases h with h | h
      · simp [mempool_init, h', mempool_init_body, h]
      · by_cases hm : mallocp = 0
        · simp [mempool_init, h', mempool_init_body, hm]
        · simp [mempool_init, h', mempool_init_body, h, hm]
    · rcases h with h | h
      · simp [mempool_init_body, h]
      · by_cases hm : mallocp = 0
        · simp [mempool_init_body, hm]
        · simp [mempool_init_body, h, hm]
  · intro hn hbs hm hmu _
    have h' : ¬ (bs = 0 ∨ n = 0) := by omega
    refine ⟨(mempool_init_body hs mallocp mutex_ok s0 n bs).2, ?_, ?_⟩
    · simp [mempool_init, h', mempool_init_body, hm, hmu]
    · simp [mempool_init_body, hm, hmu]

theorem C9_witness :
    mempool_init 24 4096 true (some start_state) 0 8 = (false, some start_state) :=
  (C9_init_outcomes 24 4096 true start_state 0 8).2.1 (Or.inl rfl)

/-- C10 (the code at a failing input): ten blocks of 256 bytes; the ten
allocations succeed and the eleventh returns `NULL`; releasing the ten
addresses in the order of their allocation returns TRUE ten times and puts
all ten blocks on the free list, but the used-list head is then 4376, not
`NULL`, and nine blocks are reachable from it. -/
theorem C10_release_in_allocation_order :
    ten_allocated.1 = [6640, 6360, 6080, 5800, 5520, 5240, 4960, 4680, 4400, 4120] ∧
    (mempool_alloc 24 ten_allocated.2).1 = 0 ∧
    (rel_many 24 ten_allocated.2 ten_allocated.1).1 = List.replicate 10 true ∧
    (free_list (rel_many 24 ten_allocated.2 ten_allocated.1).2).length = 10 ∧
    (rel_many 24 ten_allocated.2 ten_allocated.1).2.pool.memusedp = 4376 ∧
    used_list (rel_many 24 ten_allocated.2 ten_allocated.1).2 =
      [4376, 4656, 4936, 5216, 5496, 5776, 6056, 6336, 6616] := by
  decide

/-! ## The effect of one call on the store -/

theorem alloc_eq (hs : Nat) (s : State) (hinit : s.pool.poolinited = true)
    (hf : s.pool.memfreedp ≠ 0) :
    mempool_alloc hs s =
      (s.pool.memfreedp + hs,
        { pool := { s.pool with memfreedp := (s.mem s.pool.memfreedp).nextp,
                                memusedp := s.pool.memfreedp }
          mem := set_used (set_nextp (set_prevp
            (if (s.mem s.pool.memfreedp).nextp ≠ 0
              then set_prevp s.mem (s.mem s.pool.memfreedp).nextp 0 else s.mem)
            s.pool.memfreedp 0) s.pool.memfreedp s.pool.memusedp) s.pool.memfreedp true }) := by
  unfold mempool_alloc
  rw [if_pos hinit]
  simp only [if_pos hf]

theorem alloc_null (hs : Nat) (s : State)
    (h : s.pool.poolinited = false ∨ s.pool.memfreedp = 0) :
    mempool_alloc hs s = (0, s) := by
  unfold mempool_alloc
  rcases h with h | h
  · simp [h]
  · simp [h]

theorem alloc_mem_nextp (hs : Nat) (s : State) (hinit : s.pool.poolinited = true)
    (hf : s.pool.memfreedp ≠ 0) (x : Nat) :
    ((mempool_alloc hs s).2.mem x).nextp =
      if x = s.pool.memfreedp then s.pool.memusedp else (s.mem x).nextp := by
  rw [alloc_eq hs s hinit hf]
  by_cases hn : (s.mem s.pool.memfreedp).nextp ≠ 0 <;> simp [hn]

theorem alloc_mem_used (hs : Nat) (s : State) (hinit : s.pool.poolinited = true)
    (hf : s.pool.memfreedp ≠ 0) (x : Nat) :
    ((mempool_alloc hs s).2.mem x).used =
      if x = s.pool.memfreedp then true else (s.mem x).used := by
  rw [alloc_eq hs s hinit hf]
  by_cases hn : (s.mem s.pool.memfreedp).nextp ≠ 0 <;> simp [hn]

theorem alloc_mem_prevp (hs : Nat) (s : State) (hinit : s.pool.poolinited = true)
    (hf : s.pool.memfreedp ≠ 0) (x : Nat)
    (hx : x = s.pool.memfreedp ∨ (s.mem x).prevp = 0) :
    ((mempool_alloc hs s).2.mem x).prevp = 0 := by
  rw [alloc_eq hs s hinit hf]
  by_cases hxa : x = s.pool.memfreedp
  · simp [hxa]
  · have hx0 : (s.mem x).prevp = 0 := hx.resolve_left hxa
    by_cases hn : (s.mem s.pool.memfreedp).nextp = 0
    · simp [hxa, hn, hx0]
    · simp [hxa, hn, hx0]

theorem alloc_pool (hs : Nat) (s : State) :
    (mempool_alloc hs s).2.pool.poolinited = s.pool.poolinited ∧
    (mempool_alloc hs s).2.pool.membasep = s.pool.membasep ∧
    (mempool_alloc hs s).2.pool.objsize = s.pool.objsize ∧
    (mempool_alloc hs s).2.pool.blksize = s.pool.blksize ∧
    (mempool_alloc hs s).2.pool.numblk = s.pool.numblk ∧
    (mempool_alloc hs s).2.pool.totalsize = s.pool.totalsize := by
  by_cases hi : s.pool.poolinited = true
  · by_cases hf : s.pool.memfreedp = 0
    · rw [alloc_null hs s (Or.inr hf)]
      simp
    · rw [alloc_eq hs s hi hf]
      simp
  · have hi' : s.pool.poolinited = false := by
      cases h : s.pool.poolinited
      · rfl
      · exact absurd h hi
    rw [alloc_null hs s (Or.inl hi')]
    simp

/-- What an accepted `mempool_rel` knows: the pointer passed the validity
test, its header address is not null and the header reads used. -/
theorem rel_accepted {hs : Nat} {s : State} {p : Nat}
    (h : (mempool_rel hs s p).1 = true) :
    mempool_is_mem_valid hs s.pool p = true ∧
    ((p : Int) - (hs : Int)).toNat ≠ 0 ∧
    ((p : Int) - (hs : Int)).toNat + hs = p ∧
    (s.mem ((p : Int) - (hs : Int)).toNat).used = true ∧
    mempool_rel hs s p =
      (true, rel_push (rel_unlink s ((p : Int) - (hs : Int)).toNat)
        ((p : Int) - (hs : Int)).toNat) := by
  unfold mempool_rel at h ⊢
  split at h
  · simp at h
  · split at h
    · simp at h
    · rename_i hp hv
      simp only at h
      split at h
      · simp at h
      · rename_i hc
        have hv' : mempool_is_mem_valid hs s.pool p = true := by
          cases hb : mempool_is_mem_valid hs s.pool p
          · exact absurd hb hv
          · rfl
        obtain ⟨_, hge, _⟩ := is_mem_valid_ge hs s.pool p hv'
        have hc1 : ((p : Int) - (hs : Int)).toNat ≠ 0 := fun h0 => hc (Or.inl h0)
        have hc2 : (s.mem ((p : Int) - (hs : Int)).toNat).used = true := by
          cases hb : (s.mem ((p : Int) - (hs : Int)).toNat).used
          · exact absurd (Or.inr hb) hc
          · rfl
        refine ⟨hv', hc1, by omega, hc2, ?_⟩
        rw [if_neg hp, if_neg hv]
        simp only
        rw [if_neg hc]

theorem rel_rejected {hs : Nat} {s : State} {p : Nat}
    (h : (mempool_rel hs s p).1 = false) : mempool_rel hs s p = (false, s) := by
  cases hb : (mempool_rel hs s p).1
  · unfold mempool_rel at hb ⊢
    by_cases hp : p = 0
    · simp [hp]
    · by_cases hv : mempool_is_mem_valid hs s.pool p = false
      · simp [hp, hv]
      · by_cases hc : ((p : Int) - (hs : Int)).toNat = 0 ∨
            (s.mem ((p : Int) - (hs : Int)).toNat).used = false
        · simp only [if_neg hp, if_neg hv, if_pos hc]
        · simp only [if_neg hp, if_neg hv, if_neg hc] at hb
          simp at hb
  · rw [hb] at h
    simp at h

theorem rel_unlink_head (s : State) (c : Nat) (h0 : (s.mem c).prevp = 0) :
    rel_unlink s c =
      { pool := { s.pool with memusedp := (s.mem c).nextp }
        mem := if (s.mem c).nextp ≠ 0 then set_prevp s.mem (s.mem c).nextp 0 else s.mem } := by
  unfold rel_unlink
  simp [h0]

theorem rel_head_pool (s : State) (c : Nat) (h0 : (s.mem c).prevp = 0) :
    (rel_push (rel_unlink s c) c).pool =
      { s.pool with memusedp := (s.mem c).nextp, memfreedp := c } := by
  rw [rel_unlink_head s c h0]
  rfl

theorem rel_head_nextp (s : State) (c : Nat) (h0 : (s.mem c).prevp = 0) (x : Nat) :
    ((rel_push (rel_unlink s c) c).mem x).nextp =
      if x = c then s.pool.memfreedp else (s.mem x).nextp := by
  rw [rel_unlink_head s c h0]
  unfold rel_push
  by_cases h1 : (s.mem c).nextp = 0 <;> by_cases h2 : s.pool.memfreedp = 0 <;> simp [h1, h2]

theorem rel_head_used (s : State) (c : Nat) (h0 : (s.mem c).prevp = 0) (x : Nat) :
    ((rel_push (rel_unlink s c) c).mem x).used =
      if x = c then false else (s.mem x).used := by
  rw [rel_unlink_head s c h0]
  unfold rel_push
  by_cases h1 : (s.mem c).nextp = 0 <;> by_cases h2 : s.pool.memfreedp = 0 <;> simp [h1, h2]

theorem rel_head_prevp (s : State) (c : Nat) (h0 : (s.mem c).prevp = 0) (x : Nat)
    (hx : (s.mem x).prevp = 0) (hxf : x ≠ s.pool.memfreedp) :
    ((rel_push (rel_unlink s c) c).mem x).prevp = 0 := by
  rw [rel_unlink_head s c h0]
  have hm0 : ((if (s.mem c).nextp ≠ 0 then set_prevp s.mem (s.mem c).nextp 0
      else s.mem) x).prevp = 0 := by
    split
    · rw [set_prevp_prevp]
      split
      · rfl
      · exact hx
    · exact hx
  unfold rel_push
  simp only
  split
  · rw [set_prevp_prevp, if_neg hxf, set_used_prevp, set_nextp_prevp, set_prevp_prevp]
    split
    · rfl
    · exact hm0
  · rw [set_used_prevp, set_nextp_prevp, set_prevp_prevp]
    split
    · rfl
    · exact hm0

/-! ## The invariant of a pool in use -/

theorem chain_head {m : Memory} {p : Nat} {l : List Nat} (h : Chain m p l) (hp : p ≠ 0) :
    p ∈ l := by
  cases l with
  | nil => exact absurd h hp
  | cons a l =>
    obtain ⟨h1, _, _⟩ := h
    rw [h1]
    exact List.mem_cons_self a l

theorem chain_nonzero {m : Memory} : ∀ (l : List Nat) (p : Nat), Chain m p l → 0 ∉ l := by
  intro l
  induction l with
  | nil => intro p _; simp
  | cons a l ih =>
    intro p h
    obtain ⟨_, h2, h3⟩ := h
    intro h0
    rcases List.mem_cons.mp h0 with h0 | h0
    · exact h2 h0.symm
    · exact ih _ h3 h0

theorem fresh_inv {hs mallocp n bs : Nat} {s : State} (F : Fresh hs mallocp n bs s) :
    Inv hs mallocp n bs s [] := by
  have hb : 0 < hs + bs := by have := F.bs_pos; omega
  refine ⟨F.base_ne, F.bs_pos, F.inited, F.basep, F.blksize, F.numblk, F.totalsize, ?_, ?_,
    List.nodup_nil, ?_⟩
  · refine ⟨_, F.chain, desc_blocks_nodup _ _ _ hb, ?_, by simp [desc_blocks_length]⟩
    intro x
    constructor
    · intro hx
      obtain ⟨i, hi, rfl⟩ := mem_desc_blocks.mp hx
      exact ⟨hx, F.unused i hi⟩
    · intro hx
      exact hx.1
  · intro x hx hu
    obtain ⟨i, hi, rfl⟩ := mem_desc_blocks.mp hx
    rw [F.unused i hi] at hu
    exact absurd hu (by decide)
  · intro q
    constructor
    · intro h; simp at h
    · rintro ⟨x, hx, hu, _⟩
      obtain ⟨i, hi, rfl⟩ := mem_desc_blocks.mp hx
      rw [F.unused i hi] at hu
      exact absurd hu (by decide)

theorem inv_alloc {hs base n bs : Nat} {s : State} {out : List Nat}
    (I : Inv hs base n bs s out) :
    Inv hs base n bs (step hs (s, out) Op.alloc).1 (step hs (s, out) Op.alloc).2 := by
  obtain ⟨F, hch, hnd, hmem, hlen⟩ := I.free
  obtain ⟨p1, p2, p3, p4, p5, p6⟩ := alloc_pool hs s
  cases F with
  | nil =>
    have hf : s.pool.memfreedp = 0 := hch
    have he := alloc_null hs s (Or.inr hf)
    simp only [step, he]
    exact I
  | cons a l =>
    obtain ⟨h1, h2, h3⟩ := hch
    have hf : s.pool.memfreedp ≠ 0 := by rw [h1]; exact h2
    obtain ⟨ha, hl⟩ := List.nodup_cons.mp hnd
    have hres : (mempool_alloc hs s).1 = a + hs := by
      rw [alloc_eq hs s I.inited hf, h1]
    have hne : (mempool_alloc hs s).1 ≠ 0 := by rw [hres]; omega
    have hfree' : (mempool_alloc hs s).2.pool.memfreedp = (s.mem a).nextp := by
      rw [alloc_eq hs s I.inited hf, h1]
    have hused : ∀ x, ((mempool_alloc hs s).2.mem x).used =
        if x = a then true else (s.mem x).used := by
      intro x; rw [alloc_mem_used hs s I.inited hf, h1]
    have hnext : ∀ x, ((mempool_alloc hs s).2.mem x).nextp =
        if x = a then s.pool.memusedp else (s.mem x).nextp := by
      intro x; rw [alloc_mem_nextp hs s I.inited hf, h1]
    have haB : a ∈ desc_blocks base (hs + bs) n ∧ (s.mem a).used = false :=
      (hmem a).mp (List.mem_cons_self a l)
    simp only [step, if_neg hne]
    refine ⟨I.base_ne, I.bs_pos, by rw [p1]; exact I.inited, by rw [p2]; exact I.basep,
      by rw [p4]; exact I.blksize, by rw [p5]; exact I.numblk, by rw [p6]; exact I.totalsize,
      ?_, ?_, ?_, ?_⟩
    · refine ⟨l, ?_, hl, ?_, ?_⟩
      · rw [hfree']
        refine chain_congr l _ ?_ h3
        intro x hx
        have hxa : x ≠ a := fun h => ha (h ▸ hx)
        rw [hnext, if_neg hxa]
      · intro x
        rw [hused]
        by_cases hxa : x = a
        · subst hxa
          simp [ha]
        · rw [if_neg hxa, ← hmem x]
          simp [hxa]
      · rw [hres]
        simp only [List.length_cons] at hlen ⊢
        omega
    · intro x hx hu
      rw [hused] at hu
      by_cases hxa : x = a
      · exact alloc_mem_prevp hs s I.inited hf x (Or.inl (by rw [hxa, h1]))
      · rw [if_neg hxa] at hu
        exact alloc_mem_prevp hs s I.inited hf x (Or.inr (I.prev0 x hx hu))
    · rw [hres]
      refine List.nodup_cons.mpr ⟨?_, I.out_nodup⟩
      intro hin
      obtain ⟨x, _, hu, hq⟩ := (I.out_mem _).mp hin
      have hxa : x = a := by omega
      rw [hxa, haB.2] at hu
      exact absurd hu (by decide)
    · intro q
      rw [hres, List.mem_cons]
      constructor
      · rintro (hq | hq)
        · exact ⟨a, haB.1, by rw [hused]; simp, hq⟩
        · obtain ⟨x, hx, hu, hq'⟩ := (I.out_mem q).mp hq
          refine ⟨x, hx, ?_, hq'⟩
          rw [hused]
          split
          · rfl
          · exact hu
      · rintro ⟨x, hx, hu, hq⟩
        rw [hused] at hu
        by_cases hxa : x = a
        · left; rw [hq, hxa]
        · rw [if_neg hxa] at hu
          right
          exact (I.out_mem q).mpr ⟨x, hx, hu, hq⟩

theorem inv_valid_iff {hs base n bs : Nat} {s : State} {out : List Nat}
    (I : Inv hs base n bs s out) (p : Nat) (hp : p ≠ 0) :
    mempool_is_mem_valid hs s.pool p = true ↔
      ∃ i, i < n ∧ p = base + i * (hs + bs) + hs := by
  have hb : 0 < s.pool.blksize := by rw [I.blksize]; have := I.bs_pos; omega
  have ht : s.pool.totalsize = s.pool.numblk * s.pool.blksize := by
    rw [I.totalsize, I.numblk, I.blksize]
  have := is_mem_valid_iff hs s.pool p hp hb ht
  rw [I.numblk, I.basep, I.blksize] at this
  exact this

theorem inv_valid_block {hs base n bs : Nat} {s : State} {out : List Nat}
    (I : Inv hs base n bs s out) (p : Nat)
    (hv : mempool_is_mem_valid hs s.pool p = true) :
    ((p : Int) - (hs : Int)).toNat ∈ desc_blocks base (hs + bs) n := by
  obtain ⟨hp, _, _⟩ := is_mem_valid_ge hs s.pool p hv
  obtain ⟨i, hi, he⟩ := (inv_valid_iff I p hp).mp hv
  refine mem_desc_blocks.mpr ⟨i, hi, ?_⟩
  omega

theorem inv_rel {hs base n bs : Nat} {s : State} {out : List Nat}
    (I : Inv hs base n bs s out) (p : Nat) :
    Inv hs base n bs (step hs (s, out) (Op.rel p)).1 (step hs (s, out) (Op.rel p)).2 := by
  cases hb : (mempool_rel hs s p).1
  · have he := rel_rejected hb
    simp only [step, he]
    exact I
  · obtain ⟨hv, hc0, hcp, hu, he⟩ := rel_accepted hb
    generalize hcdef : ((p : Int) - (hs : Int)).toNat = c at hc0 hcp hu he
    have hcB : c ∈ desc_blocks base (hs + bs) n := by
      rw [← hcdef]; exact inv_valid_block I p hv
    have h0 : (s.mem c).prevp = 0 := I.prev0 c hcB hu
    obtain ⟨F, hch, hnd, hmem, hlen⟩ := I.free
    have hcF : c ∉ F := by
      intro h
      have := ((hmem c).mp h).2
      rw [hu] at this
      exact absurd this (by decide)
    have hpool := rel_head_pool s c h0
    have hused := rel_head_used s c h0
    have hnext := rel_head_nextp s c h0
    have hpin : p ∈ out := (I.out_mem p).mpr ⟨c, hcB, hu, hcp.symm⟩
    simp only [step, he, if_true]
    refine ⟨I.base_ne, I.bs_pos, by rw [hpool]; exact I.inited, by rw [hpool]; exact I.basep,
      by rw [hpool]; exact I.blksize, by rw [hpool]; exact I.numblk,
      by rw [hpool]; exact I.totalsize, ?_, ?_, ?_, ?_⟩
    · refine ⟨c :: F, ?_, List.nodup_cons.mpr ⟨hcF, hnd⟩, ?_, ?_⟩
      · refine ⟨by rw [hpool], hc0, ?_⟩
        rw [hnext, if_pos rfl]
        refine chain_congr F _ ?_ hch
        intro x hx
        have hxc : x ≠ c := fun h => hcF (h ▸ hx)
        rw [hnext, if_neg hxc]
      · intro x
        rw [hused, List.mem_cons]
        by_cases hxc : x = c
        · subst hxc
          simp [hcB]
        · rw [if_neg hxc, ← hmem x]
          simp [hxc]
      · have hfl : (out.filter (fun q => q ≠ p)).length = out.length - 1 := by
          have h1 := List.Nodup.erase_eq_filter I.out_nodup p
          have h2 := List.length_erase_of_mem hpin
          have hfun : (fun q => decide (q ≠ p)) = (fun x => x != p) := by
            funext q
            by_cases hq : q = p <;> simp [hq]
          have h3 : (out.filter (fun q => decide (q ≠ p))) = out.erase p := by
            rw [h1, hfun]
          rw [h3, h2]
        have hpos : 0 < out.length := List.length_pos_of_mem hpin
        have hfl' : (List.filter (fun q => decide (q ≠ p)) out).length = out.length - 1 := hfl
        simp only [List.length_cons]
        omega
    · intro x hx hux
      rw [hused] at hux
      by_cases hxc : x = c
      · rw [if_pos hxc] at hux
        exact absurd hux (by decide)
      · rw [if_neg hxc] at hux
        refine rel_head_prevp s c h0 x (I.prev0 x hx hux) ?_
        intro hxf
        by_cases hf0 : s.pool.memfreedp = 0
        · have h0F := chain_nonzero F _ hch
          obtain ⟨i, hi, hxe⟩ := mem_desc_blocks.mp hx
          have := I.base_ne
          omega
        · have hin := chain_head hch hf0
          rw [← hxf] at hin
          have := ((hmem x).mp hin).2
          rw [hux] at this
          exact absurd this (by decide)
    · exact List.Nodup.filter _ I.out_nodup
    · intro q
      rw [List.mem_filter]
      constructor
      · rintro ⟨hq, hqp⟩
        obtain ⟨x, hx, hux, hqx⟩ := (I.out_mem q).mp hq
        have hqp' : q ≠ p := by simpa using hqp
        have hxc : x ≠ c := by
          intro h; apply hqp'; rw [hqx, h, hcp]
        exact ⟨x, hx, by rw [hused, if_neg hxc]; exact hux, hqx⟩
      · rintro ⟨x, hx, hux, hqx⟩
        rw [hused] at hux
        by_cases hxc : x = c
        · rw [if_pos hxc] at hux
          exact absurd hux (by decide)
        · rw [if_neg hxc] at hux
          refine ⟨(I.out_mem q).mpr ⟨x, hx, hux, hqx⟩, ?_⟩
          have : q ≠ p := by omega
          simpa using this

theorem inv_step {hs base n bs : Nat} {s : State} {out : List Nat}
    (I : Inv hs base n bs s out) (op : Op) :
    Inv hs base n bs (step hs (s, out) op).1 (step hs (s, out) op).2 := by
  cases op with
  | alloc => exact inv_alloc I
  | rel p => exact inv_rel I p

theorem inv_run {hs base n bs : Nat} : ∀ (ops : List Op) (c : State × List Nat),
    Inv hs base n bs c.1 c.2 → Inv hs base n bs (run hs c ops).1 (run hs c ops).2 := by
  intro ops
  induction ops with
  | nil => intro c I; exact I
  | cons op ops ih =>
    intro c I
    have h : run hs c (op :: ops) = run hs (step hs c op) ops := rfl
    rw [h]
    exact ih _ (@inv_step hs base n bs c.1 c.2 I op)

theorem inv_free_list {hs base n bs : Nat} {s : State} {out : List Nat}
    (I : Inv hs base n bs s out) :
    Chain s.mem s.pool.memfreedp (free_list s) ∧ (free_list s).Nodup ∧
    (∀ x, x ∈ free_list s ↔ x ∈ desc_blocks base (hs + bs) n ∧ (s.mem x).used = false) ∧
    (free_list s).length + out.length = n := by
  obtain ⟨F, hch, hnd, hmem, hlen⟩ := I.free
  have hF : free_list s = F := by
    unfold free_list
    refine chain_list_from F _ _ hch ?_
    rw [I.numblk]
    omega
  rw [hF]
  exact ⟨hch, hnd, hmem, hlen⟩

/-! ## Claims on the pool, continued -/

theorem invalid_of_totalsize_zero (hs : Nat) (q : mempool_t) (p : Nat)
    (h : q.totalsize = 0) : mempool_is_mem_valid hs q p = false := by
  unfold mempool_is_mem_valid
  split
  · rfl
  · simp only
    rw [if_neg]
    rw [h]
    omega

theorem destroyed_valid (hs : Nat) (s : State) (p : Nat) :
    mempool_is_mem_valid hs (mempool_destroy s).pool p = false :=
  invalid_of_totalsize_zero hs _ p rfl

theorem rel_invalid (hs : Nat) (s : State) (p : Nat)
    (h : mempool_is_mem_valid hs s.pool p = false) : mempool_rel hs s p = (false, s) := by
  unfold mempool_rel
  split
  · rfl
  · simp [h]

theorem destroyed_step (hs : Nat) (s : State) (out : List Nat) (op : Op) :
    step hs (mempool_destroy s, out) op = (mempool_destroy s, out) := by
  cases op with
  | alloc =>
    have h := alloc_null hs (mempool_destroy s) (Or.inl rfl)
    simp [step, h]
  | rel p =>
    have h := rel_invalid hs (mempool_destroy s) p (destroyed_valid hs s p)
    simp [step, h]

/-- C11 as stated fails: a zeroed pool on which `mempool_init` failed at the
mutex is uninitialized and holds the arena address 8192; after
`mempool_destroy` the base pointer is still 8192. -/
theorem C11_counterexample :
    mempool_init 24 8192 false (some start_state) 1 8 = (false, some mutex_failed) ∧
    mutex_failed.pool.poolinited = false ∧
    (mempool_destroy mutex_failed).pool.membasep = 8192 :=
  ⟨rfl, by decide, by decide⟩

/-- C11 (amended): after `mempool_destroy` the free-list head and the
used-list head are null, `objsize`, `blksize`, `numblk` and `totalsize` are
`0` and the pool is uninitialized; the base pointer is null when the pool
was initialized and is left as it was otherwise. From then on
`mempool_alloc` returns `NULL`, `mempool_is_mem_valid` and `mempool_rel`
return FALSE for every pointer, and no sequence of such calls changes the
state. -/
theorem C11_destroy_resets_pool (hs : Nat) (s : State) :
    (mempool_destroy s).pool.memfreedp = 0 ∧
    (mempool_destroy s).pool.memusedp = 0 ∧
    (mempool_destroy s).pool.objsize = 0 ∧
    (mempool_destroy s).pool.blksize = 0 ∧
    (mempool_destroy s).pool.numblk = 0 ∧
    (mempool_destroy s).pool.totalsize = 0 ∧
    (mempool_destroy s).pool.poolinited = false ∧
    (mempool_destroy s).pool.membasep = (if s.pool.poolinited then 0 else s.pool.membasep) ∧
    mempool_alloc hs (mempool_destroy s) = (0, mempool_destroy s) ∧
    (∀ p, mempool_is_mem_valid hs (mempool_destroy s).pool p = false ∧
      mempool_rel hs (mempool_destroy s) p = (false, mempool_destroy s)) ∧
    (∀ ops out, run hs (mempool_destroy s, out) ops = (mempool_destroy s, out)) := by
  refine ⟨rfl, rfl, rfl, rfl, rfl, rfl, rfl, rfl, alloc_null hs _ (Or.inl rfl), ?_, ?_⟩
  · intro p
    exact ⟨destroyed_valid hs s p,
      rel_invalid hs _ p (destroyed_valid hs s p)⟩
  · intro ops
    induction ops with
    | nil => intro out; rfl
    | cons op ops ih =>
      intro out
      have h : run hs (mempool_destroy s, out) (op :: ops) =
          run hs (step hs (mempool_destroy s, out) op) ops := rfl
      rw [h, destroyed_step, ih]

/-- C12 as stated fails: on the pool of two blocks whose block size wrapped
to `0`, `mempool_alloc` returns the non-null address 4120, which
`mempool_is_mem_valid` and `mempool_rel` both reject. -/
theorem C12_counterexample :
    mempool_init 24 4096 true (some start_state) 2 4294967272 = (true, some wrapped_state) ∧
    (mempool_alloc 24 wrapped_state).1 = 4120 ∧
    mempool_is_mem_valid 24 (mempool_alloc 24 wrapped_state).2.pool 4120 = false ∧
    (mempool_rel 24 (mempool_alloc 24 wrapped_state).2 4120).1 = false :=
  ⟨rfl, by decide, by decide, by decide⟩

/-- C12 (amended): with a header of non-zero size and
`numBlocks * (headerSize + blockSize)` representable in 32 bits, in every
state reached from a successful `mempool_init` by calls of `mempool_alloc`
and `mempool_rel`, a non-null pointer `p` returned by `mempool_alloc` is
accepted by `mempool_is_mem_valid` and by `mempool_rel`, while `p + 1` is
rejected by both and the block stays allocated. -/
theorem C12_allocated_pointer_valid (hs mallocp : Nat) (mutex_ok : Bool)
    (s0 s : State) (n bs : Nat) (ops : List Op)
    (hinit : mempool_init hs mallocp mutex_ok (some s0) n bs = (true, some s))
    (hrep : n * (hs + bs) < 2 ^ 32) (hhs : 0 < hs)
    (hp : (mempool_alloc hs (run hs (s, []) ops).1).1 ≠ 0) :
    mempool_is_mem_valid hs (mempool_alloc hs (run hs (s, []) ops).1).2.pool
      (mempool_alloc hs (run hs (s, []) ops).1).1 = true ∧
    (mempool_rel hs (mempool_alloc hs (run hs (s, []) ops).1).2
      (mempool_alloc hs (run hs (s, []) ops).1).1).1 = true ∧
    mempool_is_mem_valid hs (mempool_alloc hs (run hs (s, []) ops).1).2.pool
      ((mempool_alloc hs (run hs (s, []) ops).1).1 + 1) = false ∧
    mempool_rel hs (mempool_alloc hs (run hs (s, []) ops).1).2
        ((mempool_alloc hs (run hs (s, []) ops).1).1 + 1) =
      (false, (mempool_alloc hs (run hs (s, []) ops).1).2) ∧
    ((mempool_alloc hs (run hs (s, []) ops).1).2.mem
      ((mempool_alloc hs (run hs (s, []) ops).1).1 - hs)).used = true := by
  have I := inv_run ops (s, []) (fresh_inv (init_fresh hinit hrep))
  generalize run hs (s, []) ops = c at I hp
  obtain ⟨s1, out⟩ := c
  simp only at I hp ⊢
  have I2 := inv_alloc I
  simp only [step] at I2
  have hf : s1.pool.memfreedp ≠ 0 := by
    intro h0
    rw [alloc_null hs s1 (Or.inr h0)] at hp
    exact hp rfl
  have hres : (mempool_alloc hs s1).1 = s1.pool.memfreedp + hs := by
    rw [alloc_eq hs s1 I.inited hf]
  obtain ⟨F, hch, hnd, hmem, hlen⟩ := I.free
  have hfB := ((hmem _).mp (chain_head hch hf)).1
  obtain ⟨i, hi, hfi⟩ := mem_desc_blocks.mp hfB
  have hused : ((mempool_alloc hs s1).2.mem s1.pool.memfreedp).used = true := by
    rw [alloc_mem_used hs s1 I.inited hf, if_pos rfl]
  have hv : mempool_is_mem_valid hs (mempool_alloc hs s1).2.pool (mempool_alloc hs s1).1 = true :=
    (inv_valid_iff I2 _ hp).mpr ⟨i, hi, by rw [hres, hfi]⟩
  have hv1 : mempool_is_mem_valid hs (mempool_alloc hs s1).2.pool
      ((mempool_alloc hs s1).1 + 1) = false := by
    cases hb : mempool_is_mem_valid hs (mempool_alloc hs s1).2.pool ((mempool_alloc hs s1).1 + 1)
    · rfl
    · exfalso
      obtain ⟨j, hj, he⟩ := (inv_valid_iff I2 _ (by omega)).mp hb
      rw [hres, hfi] at he
      have hbs := I.bs_pos
      rcases Nat.lt_trichotomy i j with hij | hij | hij
      · have := mul_step_le (hs + bs) hij
        omega
      · subst hij; omega
      · have := mul_step_le (hs + bs) hij
        omega
  have hcur : (((mempool_alloc hs s1).1 : Int) - (hs : Int)).toNat = s1.pool.memfreedp := by
    rw [hres]; omega
  refine ⟨hv, ?_, hv1, ?_, ?_⟩
  · unfold mempool_rel
    rw [if_neg hp]
    simp only [hv, hcur, hused]
    simp [hf]
  · exact rel_invalid hs _ _ hv1
  · rw [hres, Nat.add_sub_cancel]
    exact hused

theorem C12_witness :
    mempool_init 24 4096 true (some start_state) 3 8 = (true, some (fresh_state 3 8)) ∧
    (mempool_alloc 24 (run 24 (fresh_state 3 8, []) [Op.alloc]).1).1 = 4152 ∧
    mempool_is_mem_valid 24 (mempool_alloc 24 (run 24 (fresh_state 3 8, []) [Op.alloc]).1).2.pool
      ((mempool_alloc 24 (run 24 (fresh_state 3 8, []) [Op.alloc]).1).1 + 1) = false :=
  have h := C12_allocated_pointer_valid 24 4096 true start_state (fresh_state 3 8) 3 8
    [Op.alloc] rfl (by decide) (by decide) (by decide)
  ⟨rfl, by decide, h.2.2.1⟩

theorem init_sizes {hs mallocp : Nat} {mutex_ok : Bool} {s0 s : State} {n bs : Nat}
    (h : mempool_init hs mallocp mutex_ok (some s0) n bs = (true, some s)) :
    s.pool.membasep = mallocp ∧ s.pool.numblk = n ∧ s.pool.objsize = bs ∧
    s.pool.blksize = (bs + hs) % 2 ^ 32 ∧
    s.pool.totalsize = (n * ((bs + hs) % 2 ^ 32)) % 2 ^ 32 := by
  obtain ⟨_, _, hmp, hmu, hs'⟩ := init_success h
  subst hmu
  subst hs'
  simp [mempool_init_body, hmp, U32]

/-- C13 (the code at a failing input): for three blocks of `1431655742`
bytes and a 24-byte header `mempool_init` returns TRUE with
`blksize = 1431655766` and `totalsize = 2`, not `3 * blksize`; blocks 1 and
2, which are on the free list, start beyond the end of the arena. -/
theorem C13_slots_outside_arena :
    mempool_init 24 4096 true (some start_state) 3 1431655742 = (true, some product_wrapped) ∧
    product_wrapped.pool.blksize = 1431655766 ∧
    product_wrapped.pool.totalsize = 2 ∧
    product_wrapped.pool.totalsize ≠ 3 * product_wrapped.pool.blksize ∧
    free_list product_wrapped = [2863315628, 1431659862, 4096] ∧
    product_wrapped.pool.membasep + product_wrapped.pool.totalsize ≤
      block_addr product_wrapped.pool 1 :=
  ⟨rfl, by decide, by decide, by decide, by decide, by decide⟩

/-- Sizes stored by a successful `mempool_init`: `blksize` and `totalsize`
are computed modulo `2^32`; when `numBlocks * (headerSize + blockSize)` is
representable in 32 bits they are exact, the free list is made of the slots
`base + i * blksize` and each slot lies inside `[base, base + totalsize)`. -/
theorem init_stored_sizes (hs mallocp : Nat) (mutex_ok : Bool) (s0 s : State) (n bs : Nat)
    (hinit : mempool_init hs mallocp mutex_ok (some s0) n bs = (true, some s)) :
    s.pool.blksize = (bs + hs) % 2 ^ 32 ∧
    s.pool.totalsize = (n * s.pool.blksize) % 2 ^ 32 ∧
    (n * (hs + bs) < 2 ^ 32 →
      s.pool.blksize = hs + bs ∧
      s.pool.totalsize = n * s.pool.blksize ∧
      free_list s = (blocks s.pool).reverse ∧
      ∀ i, i < n → s.pool.membasep ≤ block_addr s.pool i ∧
        block_addr s.pool i + s.pool.blksize ≤ s.pool.membasep + s.pool.totalsize) := by
  obtain ⟨_, _, _, h4, h5⟩ := init_sizes hinit
  refine ⟨h4, by rw [h5, h4], ?_⟩
  intro hrep
  have F := init_fresh hinit hrep
  have hblocks : blocks s.pool = (desc_blocks mallocp (hs + bs) n).reverse := by
    simp [blocks, desc_blocks, block_addr, F.numblk, F.basep, F.blksize]
  refine ⟨F.blksize, by rw [F.totalsize, F.blksize], ?_, ?_⟩
  · rw [hblocks, List.reverse_reverse]
    unfold free_list
    refine chain_list_from _ _ _ F.chain ?_
    rw [desc_blocks_length, F.numblk]
    exact Nat.lt_succ_self n
  · intro i hi
    have := mul_step_le (hs + bs) hi
    unfold block_addr
    rw [F.basep, F.blksize, F.totalsize]
    constructor <;> omega

/-- C18: `mempool_alloc` as a state transition. When the pool is
uninitialized or the free list is empty it returns `NULL` and the state is
unchanged. Otherwise, with `f` the free-list head, it returns
`f + headerSize`; afterwards the free-list head is the former successor of
`f`, the used-list head is `f`, `f->nextp` is the previous used-list head,
`f->used` is TRUE and no other block's used flag has changed. -/
theorem C18_alloc_transition (hs : Nat) (s : State) :
    ((s.pool.poolinited = false ∨ s.pool.memfreedp = 0) → mempool_alloc hs s = (0, s)) ∧
    (s.pool.poolinited = true → s.pool.memfreedp ≠ 0 →
      (mempool_alloc hs s).1 = s.pool.memfreedp + hs ∧
      (mempool_alloc hs s).2.pool.memfreedp = (s.mem s.pool.memfreedp).nextp ∧
      (mempool_alloc hs s).2.pool.memusedp = s.pool.memfreedp ∧
      ((mempool_alloc hs s).2.mem s.pool.memfreedp).nextp = s.pool.memusedp ∧
      ((mempool_alloc hs s).2.mem s.pool.memfreedp).used = true ∧
      ∀ x, x ≠ s.pool.memfreedp →
        ((mempool_alloc hs s).2.mem x).used = (s.mem x).used) := by
  refine ⟨alloc_null hs s, ?_⟩
  intro hi hf
  refine ⟨?_, ?_, ?_, ?_, ?_, ?_⟩
  · rw [alloc_eq hs s hi hf]
  · rw [alloc_eq hs s hi hf]
  · rw [alloc_eq hs s hi hf]
  · rw [alloc_mem_nextp hs s hi hf, if_pos rfl]
  · rw [alloc_mem_used hs s hi hf, if_pos rfl]
  · intro x hx
    rw [alloc_mem_used hs s hi hf, if_neg hx]

theorem C18_witness :
    (mempool_alloc 24 (fresh_state 3 8)).1 = (fresh_state 3 8).pool.memfreedp + 24 ∧
    (mempool_alloc 24 (fresh_state 3 8)).2.pool.memusedp = (fresh_state 3 8).pool.memfreedp :=
  have h := (C18_alloc_transition 24 (fresh_state 3 8)).2 (by decide) (by decide)
  ⟨h.1, h.2.2.1⟩

/-- C19 as stated fails: on the pool of two blocks whose block size wrapped
to `0`, the first `mempool_alloc` returns 4120 and the second returns 4120
again while it is outstanding. -/
theorem C19_counterexample :
    mempool_init 24 4096 true (some start_state) 2 4294967272 = (true, some wrapped_state) ∧
    (run 24 (wrapped_state, []) [Op.alloc]).2 = [4120] ∧
    (mempool_alloc 24 (run 24 (wrapped_state, []) [Op.alloc]).1).1 = 4120 :=
  ⟨rfl, by decide, by decide⟩

/-- C19 (amended): with `numBlocks * (headerSize + blockSize)` representable
in 32 bits, after every finite sequence of `mempool_alloc` and `mempool_rel`
calls (any pointer arguments) on a successfully initialized pool, the
address that `mempool_alloc` returns next is not outstanding. -/
theorem C19_alloc_never_returns_outstanding (hs mallocp : Nat) (mutex_ok : Bool)
    (s0 s : State) (n bs : Nat) (ops : List Op)
    (hinit : mempool_init hs mallocp mutex_ok (some s0) n bs = (true, some s))
    (hrep : n * (hs + bs) < 2 ^ 32) :
    (mempool_alloc hs (run hs (s, []) ops).1).1 ∉ (run hs (s, []) ops).2 := by
  have I := inv_run ops (s, []) (fresh_inv (init_fresh hinit hrep))
  have I2 := (inv_alloc I).out_nodup
  generalize run hs (s, []) ops = c at I I2
  obtain ⟨s1, out⟩ := c
  simp only [step] at I I2 ⊢
  intro hin
  by_cases h0 : (mempool_alloc hs s1).1 = 0
  · obtain ⟨x, hx, _, hq⟩ := (I.out_mem _).mp hin
    obtain ⟨i, _, rfl⟩ := mem_desc_blocks.mp hx
    have := I.base_ne
    omega
  · rw [if_neg h0] at I2
    exact (List.nodup_cons.mp I2).1 hin

theorem C19_witness :
    mempool_init 24 4096 true (some start_state) 3 8 = (true, some (fresh_state 3 8)) ∧
    3 * (24 + 8) < 2 ^ 32 ∧
    (mempool_alloc 24 (run 24 (fresh_state 3 8, [])
      [Op.alloc, Op.alloc, Op.rel 4184, Op.rel 77]).1).1 ∉
      (run 24 (fresh_state 3 8, []) [Op.alloc, Op.alloc, Op.rel 4184, Op.rel 77]).2 :=
  ⟨rfl, by decide,
    C19_alloc_never_returns_outstanding 24 4096 true start_state (fresh_state 3 8) 3 8
      [Op.alloc, Op.alloc, Op.rel 4184, Op.rel 77] rfl (by decide)⟩

/-- C20 as stated fails: on the pool of two blocks whose block size wrapped
to `0`, the block at 4096 is its own successor, so following `nextp` from
`memfreedp` never reaches `NULL`. -/
theorem C20_counterexample :
    mempool_init 24 4096 true (some start_state) 2 4294967272 = (true, some wrapped_state) ∧
    wrapped_state.pool.memfreedp = 4096 ∧
    (wrapped_state.mem wrapped_state.pool.memfreedp).nextp = wrapped_state.pool.memfreedp ∧
    list_from wrapped_state.mem 6 wrapped_state.pool.memfreedp =
      [4096, 4096, 4096, 4096, 4096, 4096] ∧
    ¬ (free_list wrapped_state).Nodup :=
  ⟨rfl, by decide, by decide, by decide, by decide⟩

/-- C20 (amended): with `numBlocks * (headerSize + blockSize)` representable
in 32 bits, in every state reached from a successful `mempool_init` by
calls of `mempool_alloc` and `mempool_rel`, following `nextp` from
`memfreedp` ends in `NULL`, visits no block twice and visits exactly the
blocks whose used flag is FALSE; the number of free blocks plus the number
of outstanding allocations is `numBlocks`, and `mempool_alloc` returns a
non-null address exactly when fewer than `numBlocks` allocations are
outstanding. -/
theorem C20_free_list_is_unused_blocks (hs mallocp : Nat) (mutex_ok : Bool)
    (s0 s : State) (n bs : Nat) (ops : List Op)
    (hinit : mempool_init hs mallocp mutex_ok (some s0) n bs = (true, some s))
    (hrep : n * (hs + bs) < 2 ^ 32) :
    Chain (run hs (s, []) ops).1.mem (run hs (s, []) ops).1.pool.memfreedp
      (free_list (run hs (s, []) ops).1) ∧
    (free_list (run hs (s, []) ops).1).Nodup ∧
    (∀ x, x ∈ free_list (run hs (s, []) ops).1 ↔
      x ∈ blocks (run hs (s, []) ops).1.pool ∧ ((run hs (s, []) ops).1.mem x).used = false) ∧
    (free_list (run hs (s, []) ops).1).length + (run hs (s, []) ops).2.length = n ∧
    ((mempool_alloc hs (run hs (s, []) ops).1).1 ≠ 0 ↔ (run hs (s, []) ops).2.length < n) := by
  have I := inv_run ops (s, []) (fresh_inv (init_fresh hinit hrep))
  generalize run hs (s, []) ops = c at I
  obtain ⟨s1, out⟩ := c
  simp only at I ⊢
  obtain ⟨hch, hnd, hmem, hlen⟩ := inv_free_list I
  have hblocks : ∀ x, x ∈ blocks s1.pool ↔ x ∈ desc_blocks mallocp (hs + bs) n := by
    intro x
    simp [blocks, desc_blocks, block_addr, I.numblk, I.basep, I.blksize]
  refine ⟨hch, hnd, ?_, hlen, ?_⟩
  · intro x
    rw [hmem, hblocks]
  · constructor
    · intro hne
      have hf : s1.pool.memfreedp ≠ 0 := by
        intro h0
        rw [alloc_null hs s1 (Or.inr h0)] at hne
        exact hne rfl
      have := List.length_pos_of_mem (chain_head hch hf)
      omega
    · intro hlt
      have hpos : 0 < (free_list s1).length := by omega
      cases hfl : free_list s1 with
      | nil => rw [hfl] at hpos; simp at hpos
      | cons a l =>
        rw [hfl] at hch
        obtain ⟨h1, h2, _⟩ := hch
        have hf : s1.pool.memfreedp ≠ 0 := by rw [h1]; exact h2
        rw [alloc_eq hs s1 I.inited hf]
        simp only
        omega

theorem C20_witness :
    mempool_init 24 4096 true (some start_state) 3 8 = (true, some (fresh_state 3 8)) ∧
    3 * (24 + 8) < 2 ^ 32 ∧
    (free_list (run 24 (fresh_state 3 8, []) [Op.alloc, Op.alloc, Op.rel 4184]).1).Nodup ∧
    (free_list (run 24 (fresh_state 3 8, []) [Op.alloc, Op.alloc, Op.rel 4184]).1).length +
      (run 24 (fresh_state 3 8, []) [Op.alloc, Op.alloc, Op.rel 4184]).2.length = 3 :=
  have h := C20_free_list_is_unused_blocks 24 4096 true start_state (fresh_state 3 8) 3 8
    [Op.alloc, Op.alloc, Op.rel 4184] rfl (by decide)
  ⟨rfl, by decide, h.2.1, h.2.2.2.1⟩


/-! ## Claims on the branches of `mempool_rel` and on the stored sizes -/

theorem rel_pool_sizes (hs : Nat) (s : State) (p : Nat) :
    (mempool_rel hs s p).2.pool.blksize = s.pool.blksize ∧
    (mempool_rel hs s p).2.pool.totalsize = s.pool.totalsize := by
  unfold mempool_rel
  split
  · exact ⟨rfl, rfl⟩
  · split
    · exact ⟨rfl, rfl⟩
    · simp only
      split
      · exact ⟨rfl, rfl⟩
      · unfold rel_push rel_unlink
        split <;> exact ⟨rfl, rfl⟩

theorem init_body_sizes (hs mallocp : Nat) (mutex_ok : Bool) (s : State) (n bs : Nat) :
    ((mempool_init_body hs mallocp mutex_ok s n bs).2.pool.blksize = s.pool.blksize ∧
      (mempool_init_body hs mallocp mutex_ok s n bs).2.pool.totalsize = s.pool.totalsize) ∨
    (mempool_init_body hs mallocp mutex_ok s n bs).2.pool.totalsize =
      (n * (mempool_init_body hs mallocp mutex_ok s n bs).2.pool.blksize) % U32 := by
  unfold mempool_init_body
  simp only
  split
  · exact Or.inl ⟨rfl, rfl⟩
  · split
    · exact Or.inl ⟨rfl, rfl⟩
    · exact Or.inr rfl

theorem call_step_init (hs : Nat) (s : State) (mallocp : Nat) (mutex_ok : Bool) (n bs : Nat) :
    call_step hs s (Call.init mallocp mutex_ok n bs) =
      if bs = 0 ∨ n = 0 then s else (mempool_init_body hs mallocp mutex_ok s n bs).2 := by
  unfold call_step mempool_init
  by_cases hz : bs = 0 ∨ n = 0
  · simp [hz]
  · simp [hz]

theorem call_step_sizes (hs : Nat) (s : State) (c : Call)
    (h : s.pool.blksize = 0 → s.pool.totalsize = 0) :
    (call_step hs s c).pool.blksize = 0 → (call_step hs s c).pool.totalsize = 0 := by
  cases c with
  | init mallocp mutex_ok n bs =>
    rw [call_step_init]
    split
    · exact h
    · rcases init_body_sizes hs mallocp mutex_ok s n bs with h1 | h1
      · rw [h1.1, h1.2]; exact h
      · intro h0
        rw [h1, h0]
        simp
  | alloc =>
    obtain ⟨_, _, _, h4, _, h6⟩ := alloc_pool hs s
    simp only [call_step]
    rw [h4, h6]
    exact h
  | rel p =>
    obtain ⟨h1, h2⟩ := rel_pool_sizes hs s p
    simp only [call_step]
    rw [h1, h2]
    exact h
  | destroy =>
    intro _
    rfl

theorem run_calls_sizes (hs : Nat) : ∀ (cs : List Call) (s : State),
    (s.pool.blksize = 0 → s.pool.totalsize = 0) →
    (run_calls hs s cs).pool.blksize = 0 → (run_calls hs s cs).pool.totalsize = 0 := by
  intro cs
  induction cs with
  | nil => intro s h; exact h
  | cons c cs ih =>
    intro s h
    have e : run_calls hs s (c :: cs) = run_calls hs (call_step hs s c) cs := rfl
    rw [e]
    exact ih _ (call_step_sizes hs s c h)

theorem divides_totalsize_pos (hs : Nat) (q : mempool_t) (p : Nat)
    (h : is_mem_valid_divides hs q p = true) : 0 < q.totalsize := by
  unfold is_mem_valid_divides at h
  split at h
  · simp at h
  · simp only at h
    split at h
    · omega
    · simp at h

/-- C21 as stated fails: for six blocks of `2^30 - 24` bytes and a 24-byte
header `mempool_init` returns TRUE with wrapped sizes; after four
allocations and the release of 4120 the block at 1073745920 has
`used = TRUE` and `prevp = 4096`, and `mempool_rel` of its payload address
runs the branch of the node in the middle with `nextp = NULL`. -/
theorem C21_counterexample :
    mempool_init 24 4096 true (some start_state) 6 1073741800 = (true, some period_wrapped) ∧
    1073745920 ∈ blocks period_released.pool ∧
    (period_released.mem 1073745920).used = true ∧
    (period_released.mem 1073745920).prevp = 4096 ∧
    (period_released.mem 1073745920).nextp = 0 ∧
    rel_middle 24 period_released 1073745944 = true ∧
    rel_null_deref 24 period_released 1073745944 = true :=
  ⟨rfl, by decide, by decide, by decide, by decide, by decide, by decide⟩

/-- C21 (amended): with `numBlocks * (headerSize + blockSize)` representable
in 32 bits, in every state reached from a successful `mempool_init` by
calls of `mempool_alloc` and `mempool_rel`, every block whose used flag is
TRUE has `prevp == NULL`; no call `mempool_rel(p)` runs the branch of the
node in the middle, and none dereferences a null link. -/
theorem C21_used_blocks_have_null_prevp (hs mallocp : Nat) (mutex_ok : Bool)
    (s0 s : State) (n bs : Nat) (ops : List Op)
    (hinit : mempool_init hs mallocp mutex_ok (some s0) n bs = (true, some s))
    (hrep : n * (hs + bs) < 2 ^ 32) :
    (∀ x, x ∈ blocks (run hs (s, []) ops).1.pool →
      ((run hs (s, []) ops).1.mem x).used = true →
      ((run hs (s, []) ops).1.mem x).prevp = 0) ∧
    (∀ p, rel_middle hs (run hs (s, []) ops).1 p = false) ∧
    (∀ p, rel_null_deref hs (run hs (s, []) ops).1 p = false) := by
  have I := inv_run ops (s, []) (fresh_inv (init_fresh hinit hrep))
  generalize run hs (s, []) ops = c at I
  obtain ⟨s1, out⟩ := c
  simp only at I ⊢
  have hblocks : ∀ x, x ∈ blocks s1.pool ↔ x ∈ desc_blocks mallocp (hs + bs) n := by
    intro x
    simp [blocks, desc_blocks, block_addr, I.numblk, I.basep, I.blksize]
  have hmid : ∀ p, rel_middle hs s1 p = false := by
    intro p
    unfold rel_middle
    split
    · rfl
    · split
      · rfl
      · rename_i hp hv
        simp only
        split
        · rfl
        · rename_i hc
          have hv1 : mempool_is_mem_valid hs s1.pool p = true := by
            cases hb : mempool_is_mem_valid hs s1.pool p
            · exact absurd hb hv
            · rfl
          have hu : (s1.mem ((p : Int) - (hs : Int)).toNat).used = true := by
            cases hb : (s1.mem ((p : Int) - (hs : Int)).toNat).used
            · exact absurd (Or.inr hb) hc
            · rfl
          have h0 := I.prev0 _ (inv_valid_block I p hv1) hu
          rw [if_neg]
          intro hne
          exact hne h0
  refine ⟨?_, hmid, ?_⟩
  · intro x hx hu
    exact I.prev0 x ((hblocks x).mp hx) hu
  · intro p
    unfold rel_null_deref
    rw [hmid p]
    simp

theorem C21_witness :
    mempool_init 24 4096 true (some start_state) 3 8 = (true, some (fresh_state 3 8)) ∧
    3 * (24 + 8) < 2 ^ 32 ∧
    ∀ p, rel_middle 24 (run 24 (fresh_state 3 8, []) [Op.alloc, Op.alloc, Op.rel 4184]).1 p
      = false :=
  ⟨rfl, by decide,
    (C21_used_blocks_have_null_prevp 24 4096 true start_state (fresh_state 3 8) 3 8
      [Op.alloc, Op.alloc, Op.rel 4184] rfl (by decide)).2.1⟩

/-- C22: in every pool control block reached from an all-zero control block
by calls of `mempool_init` (successful or failed, sizes computed modulo
`2^32`), `mempool_alloc`, `mempool_rel` and `mempool_destroy`, `blksize == 0`
implies `totalsize == 0`; for every pointer for which
`mempool_is_mem_valid` reaches the modulus and the division by `blksize`,
`blksize > 0`. -/
theorem C22_division_never_by_zero (hs : Nat) (mem : Memory) (cs : List Call) :
    ((run_calls hs ⟨zero_pool, mem⟩ cs).pool.blksize = 0 →
      (run_calls hs ⟨zero_pool, mem⟩ cs).pool.totalsize = 0) ∧
    (∀ p, is_mem_valid_divides hs (run_calls hs ⟨zero_pool, mem⟩ cs).pool p = true →
      0 < (run_calls hs ⟨zero_pool, mem⟩ cs).pool.blksize) := by
  have h := run_calls_sizes hs cs ⟨zero_pool, mem⟩ (fun _ => rfl)
  refine ⟨h, ?_⟩
  intro p hp
  have ht := divides_totalsize_pos hs _ p hp
  rcases Nat.eq_zero_or_pos (run_calls hs ⟨zero_pool, mem⟩ cs).pool.blksize with h0 | h0
  · have := h h0
    omega
  · exact h0

theorem C22_witness :
    is_mem_valid_divides 24
      (run_calls 24 ⟨zero_pool, zero_mem⟩
        [Call.init 4096 true 2 4294967272, Call.alloc, Call.init 8192 false 3 8,
          Call.destroy, Call.init 4096 true 3 8]).pool 4120 = true ∧
    0 < (run_calls 24 ⟨zero_pool, zero_mem⟩
        [Call.init 4096 true 2 4294967272, Call.alloc, Call.init 8192 false 3 8,
          Call.destroy, Call.init 4096 true 3 8]).pool.blksize :=
  ⟨by decide,
    (C22_division_never_by_zero 24 zero_mem
      [Call.init 4096 true 2 4294967272, Call.alloc, Call.init 8192 false 3 8,
        Call.destroy, Call.init 4096 true 3 8]).2 4120 (by decide)⟩
end Mempool

namespace Message

/-! ## Lemmas on the messaging layer -/

theorem client_find_some {t : Table} {id : Nat} (h : client_find t id ≠ none) :
    id ≤ MAX_CLIENT_255 ∧ (t id).valid = true ∧ client_find t id = some id := by
  unfold client_find at h ⊢
  split
  · rename_i hc
    exact ⟨hc.1, hc.2, rfl⟩
  · rename_i hc
    rw [if_neg hc] at h
    exact absurd rfl h

theorem client_find_of_valid {t : Table} {id : Nat} (h1 : id ≤ MAX_CLIENT_255)
    (h2 : (t id).valid = true) : client_find t id = some id := by
  unfold client_find
  rw [if_pos ⟨h1, h2⟩]

theorem client_find_of_invalid {t : Table} {id : Nat} (h : (t id).valid = false) :
    client_find t id = none := by
  unfold client_find
  rw [if_neg]
  rw [h]
  simp

theorem sem_post_below {sem_value_max count : Nat} (h : count < sem_value_max) :
    sem_post sem_value_max count = (0, count + 1) := by
  unfold sem_post
  rw [if_pos h]

theorem sem_post_full {sem_value_max count : Nat} (h : sem_value_max ≤ count) :
    sem_post sem_value_max count = (-1, count) := by
  unfold sem_post
  rw [if_neg (by omega)]

theorem sem_post_status {sem_value_max count : Nat}
    (h : (sem_post sem_value_max count).1 = 0) : count < sem_value_max := by
  unfold sem_post at h
  split at h
  · assumption
  · simp at h

theorem send_found (sem_value_max : Nat) (t : Table) (id msg : Nat) (hmsg : msg ≠ 0)
    (hreg : client_find t id ≠ none) :
    send sem_value_max t id msg =
      ((sem_post sem_value_max (t id).sema).1,
        fun i => if i = id then
          { t i with datap := msg, sema := (sem_post sem_value_max (t i).sema).2 } else t i) := by
  obtain ⟨_, _, hf⟩ := client_find_some hreg
  unfold send
  rw [if_neg hmsg, hf]
  simp only [signal_send]
  refine Prod.ext ?_ ?_
  · simp
  · funext i
    by_cases hi : i = id
    · simp [hi]
    · simp [hi]

theorem send_valid (sem_value_max : Nat) (t : Table) (id msg : Nat) (j : Nat) :
    ((send sem_value_max t id msg).2 j).valid = (t j).valid := by
  unfold send
  split
  · rfl
  · split
    · rfl
    · rename_i c _
      simp only [signal_send]
      by_cases hj : j = c
      · simp [hj]
      · simp [hj]

theorem send_keeps_registered (sem_value_max : Nat) (t : Table) (id msg : Nat)
    (hreg : client_find t id ≠ none) :
    client_find (send sem_value_max t id msg).2 id ≠ none := by
  obtain ⟨h1, h2, _⟩ := client_find_some hreg
  rw [client_find_of_valid h1 (by rw [send_valid]; exact h2)]
  simp

theorem send_many_append (sem_value_max id : Nat) : ∀ (a b : List Nat) (t : Table),
    send_many sem_value_max t id (a ++ b) =
      ((send_many sem_value_max t id a).1 ++
          (send_many sem_value_max (send_many sem_value_max t id a).2 id b).1,
        (send_many sem_value_max (send_many sem_value_max t id a).2 id b).2) := by
  intro a
  induction a with
  | nil => intro b t; rfl
  | cons m a ih =>
    intro b t
    show send_many sem_value_max t id (m :: (a ++ b)) = _
    simp only [send_many]
    rw [ih]
    rfl

theorem send_many_keeps_registered (sem_value_max id : Nat) : ∀ (ms : List Nat) (t : Table),
    client_find t id ≠ none → client_find (send_many sem_value_max t id ms).2 id ≠ none := by
  intro ms
  induction ms with
  | nil => intro t h; exact h
  | cons m ms ih =>
    intro t h
    simp only [send_many]
    exact ih _ (send_keeps_registered sem_value_max t id m h)

theorem recv_ready (sem_init_ok : Bool) (self_tid : Nat) (t : Table) (id : Nat)
    (h1 : id ≤ MAX_CLIENT_255) (h2 : (t id).valid = true) (h3 : (t id).sema ≠ 0) :
    recv sem_init_ok self_tid t id =
      some (SUCCESS, some (pointer.datap_field id),
        fun i => if i = id then { t i with sema := (t i).sema - 1 } else t i) := by
  unfold recv
  rw [client_find_of_valid h1 h2]
  simp only [recv_wait, signal_wait]
  simp [h2, h3]

/-! ## Claims on the messaging layer -/

/-- C14 as stated fails: after a successful `send(5, m)` with `m = 4120`,
`recv(5, out)` returns success and what it stores through `out` is the
address of the mailbox field of entry 5, not the message pointer `m`. -/
theorem C14_counterexample :
    client_find registered_5 5 = some 5 ∧
    (send SEM_MAX_RUN registered_5 5 4120).1 = SUCCESS ∧
    (recv true 77 (send SEM_MAX_RUN registered_5 5 4120).2 5).map (fun r => (r.1, r.2.1)) =
      some (SUCCESS, some (pointer.datap_field 5)) ∧
    (recv true 77 (send SEM_MAX_RUN registered_5 5 4120).2 5).map (fun r => (r.1, r.2.1)) ≠
      some (SUCCESS, some (pointer.message 4120)) := by
  decide

/-- C14 (amended): for a registered client id and a non-empty sequence of
successful `send(id, m_1)`, ..., `send(id, m_k)` with no `recv` in between,
the next `recv(id, out)` returns success and stores through `out` the
address of the mailbox field of the entry; the mailbox then holds `m_k`,
which is what the receiver reads through the stored address. -/
theorem C14_recv_after_sends (sem_value_max : Nat) (sem_init_ok : Bool) (self_tid : Nat)
    (t : Table) (id : Nat) (front : List Nat) (m_k : Nat)
    (hreg : client_find t id ≠ none)
    (hok : ∀ st, st ∈ (send_many sem_value_max t id (front ++ [m_k])).1 → st = SUCCESS) :
    ∃ t', recv sem_init_ok self_tid (send_many sem_value_max t id (front ++ [m_k])).2 id =
        some (SUCCESS, some (pointer.datap_field id), t') ∧
      (t' id).datap = m_k ∧
      deref t' (pointer.datap_field id) = m_k := by
  rw [send_many_append] at hok ⊢
  simp only at hok ⊢
  have hreg1 := send_many_keeps_registered sem_value_max id front t hreg
  generalize (send_many sem_value_max t id front).2 = t1 at hok hreg1 ⊢
  have hst : (send sem_value_max t1 id m_k).1 = SUCCESS := by
    apply hok
    simp [send_many]
  have hm : m_k ≠ 0 := by
    intro h0
    simp [send, h0, ERROR, SUCCESS] at hst
  have hsend := send_found sem_value_max t1 id m_k hm hreg1
  obtain ⟨h1, h2, _⟩ := client_find_some hreg1
  have hlt : (t1 id).sema < sem_value_max := by
    rw [hsend] at hst
    exact sem_post_status hst
  have hfin : (send_many sem_value_max t1 id [m_k]).2 = (send sem_value_max t1 id m_k).2 := rfl
  rw [hfin]
  have hv : ((send sem_value_max t1 id m_k).2 id).valid = true := by
    rw [send_valid]; exact h2
  have hd : ((send sem_value_max t1 id m_k).2 id).datap = m_k := by rw [hsend]; simp
  have hc : ((send sem_value_max t1 id m_k).2 id).sema ≠ 0 := by
    rw [hsend]; simp [sem_post_below hlt]
  generalize (send sem_value_max t1 id m_k).2 = t2 at hv hd hc
  refine ⟨_, recv_ready sem_init_ok self_tid t2 id h1 hv hc, ?_, ?_⟩
  · simp [hd]
  · simp [deref, hd]

theorem C14_witness :
    client_find registered_5 5 ≠ none ∧
    ∃ t', recv true 77 (send_many SEM_MAX_RUN registered_5 5 ([4120] ++ [4400])).2 5 =
        some (SUCCESS, some (pointer.datap_field 5), t') ∧
      (t' 5).datap = 4400 ∧
      deref t' (pointer.datap_field 5) = 4400 :=
  ⟨by decide,
    C14_recv_after_sends SEM_MAX_RUN true 77 registered_5 5 [4120] 4400 (by decide)
      (by decide)⟩

/-- C15 as stated fails. For the valid entry 5 whose semaphore counter is at
`SEM_VALUE_MAX`, `send(5, msg)` with a non-null `msg` overwrites the mailbox
and returns `-1`, not success, with the counter as it was. For id 255, with
none of the 255 entries valid, `send(255, msg)` returns SUCCESS when the
memory behind the table reads as valid. -/
theorem C15_counterexample :
    (full_5 5).valid = true ∧
    (full_5 5).sema = SEM_MAX_RUN ∧
    (send SEM_MAX_RUN full_5 5 4120).1 = ERROR ∧
    (send SEM_MAX_RUN full_5 5 4120).1 ≠ SUCCESS ∧
    ((send SEM_MAX_RUN full_5 5 4120).2 5).datap = 4120 ∧
    ((send SEM_MAX_RUN full_5 5 4120).2 5).sema = SEM_MAX_RUN ∧
    (∀ i, i < CIDTABLE_LEN → (behind_valid i).valid = false) ∧
    (send SEM_MAX_RUN behind_valid 255 4120).1 = SUCCESS := by
  refine ⟨by decide, by decide, by decide, by decide, by decide, by decide, ?_, by decide⟩
  intro i hi
  have h : i ≠ 255 := by
    intro h; rw [h] at hi; exact absurd hi (by decide)
  simp [behind_valid, h]

/-- C15 (amended): for a destination id in the range `0 .. 254` of the table,
`send(destinationId, msg)` returns ERROR and leaves every entry as it is
when `msg` is null or the entry is not valid. Otherwise it stores `msg` in
the entry's mailbox, leaves every other entry unchanged and returns the
status of `sem_post`: with the counter below `SEM_VALUE_MAX` the counter is
one more and the status is success; with the counter at `SEM_VALUE_MAX` the
counter is unchanged and the status is ERROR. -/
theorem C15_send_outcomes (sem_value_max : Nat) (t : Table) (id msg : Nat)
    (hid : id < CIDTABLE_LEN) :
    ((msg = 0 ∨ (t id).valid = false) → send sem_value_max t id msg = (ERROR, t)) ∧
    (msg ≠ 0 → (t id).valid = true → (t id).sema < sem_value_max →
      (send sem_value_max t id msg).1 = SUCCESS ∧
      ((send sem_value_max t id msg).2 id).datap = msg ∧
      ((send sem_value_max t id msg).2 id).sema = (t id).sema + 1 ∧
      ((send sem_value_max t id msg).2 id).valid = (t id).valid ∧
      ((send sem_value_max t id msg).2 id).tid = (t id).tid ∧
      ∀ j, j ≠ id → (send sem_value_max t id msg).2 j = t j) ∧
    (msg ≠ 0 → (t id).valid = true → sem_value_max ≤ (t id).sema →
      (send sem_value_max t id msg).1 = ERROR ∧
      ((send sem_value_max t id msg).2 id).datap = msg ∧
      ((send sem_value_max t id msg).2 id).sema = (t id).sema ∧
      ((send sem_value_max t id msg).2 id).valid = (t id).valid ∧
      ((send sem_value_max t id msg).2 id).tid = (t id).tid ∧
      ∀ j, j ≠ id → (send sem_value_max t id msg).2 j = t j) := by
  have hle : id ≤ MAX_CLIENT_255 := by
    have : CIDTABLE_LEN = 255 := rfl
    have : MAX_CLIENT_255 = 255 := rfl
    omega
  refine ⟨?_, ?_, ?_⟩
  · intro h
    unfold send
    by_cases hm : msg = 0
    · rw [if_pos hm]
    · rw [if_neg hm]
      rcases h with h | h
      · exact absurd h hm
      · rw [client_find_of_invalid h]
  · intro hm hv hlt
    have hreg : client_find t id ≠ none := by
      rw [client_find_of_valid hle hv]; simp
    rw [send_found sem_value_max t id msg hm hreg]
    refine ⟨by rw [sem_post_below hlt]; rfl, by simp, by simp [sem_post_below hlt], by simp,
      by simp, ?_⟩
    intro j hj
    simp [hj]
  · intro hm hv hge
    have hreg : client_find t id ≠ none := by
      rw [client_find_of_valid hle hv]; simp
    rw [send_found sem_value_max t id msg hm hreg]
    refine ⟨by rw [sem_post_full hge]; rfl, by simp, by simp [sem_post_full hge], by simp,
      by simp, ?_⟩
    intro j hj
    simp [hj]

theorem C15_witness :
    5 < CIDTABLE_LEN ∧
    (send SEM_MAX_RUN registered_5 5 4120).1 = SUCCESS ∧
    ((send SEM_MAX_RUN registered_5 5 4120).2 5).datap = 4120 ∧
    ((send SEM_MAX_RUN registered_5 5 4120).2 5).sema = (registered_5 5).sema + 1 :=
  have h := (C15_send_outcomes SEM_MAX_RUN registered_5 5 4120 (by decide)).2.1
    (by decide) (by decide) (by decide)
  ⟨by decide, h.1, h.2.1, h.2.2.1⟩

/-- C16: when the entry is valid and bound to thread `t`, `signal_reg(id, t)`
returns ERROR and leaves the table as it is. Otherwise, when `sem_init`
succeeds, it returns SUCCESS and the entry is valid, bound to `t`, with
semaphore counter `0`, all other entries unchanged. When `sem_init` fails
it returns ERROR and the valid flag and the thread identity of the entry are
as before. -/
theorem C16_signal_reg_outcomes (sem_init_ok : Bool) (t : Table) (id thr : Nat) :
    ((t id).valid = true → (t id).tid = thr →
      signal_reg sem_init_ok t id thr = (ERROR, t)) ∧
    (sem_init_ok = true → ((t id).valid = false ∨ (t id).tid ≠ thr) →
      (signal_reg sem_init_ok t id thr).1 = SUCCESS ∧
      ((signal_reg sem_init_ok t id thr).2 id).valid = true ∧
      ((signal_reg sem_init_ok t id thr).2 id).tid = thr ∧
      ((signal_reg sem_init_ok t id thr).2 id).sema = 0 ∧
      ∀ j, j ≠ id → (signal_reg sem_init_ok t id thr).2 j = t j) ∧
    (sem_init_ok = false →
      (signal_reg sem_init_ok t id thr).1 = ERROR ∧
      ((signal_reg sem_init_ok t id thr).2 id).valid = (t id).valid ∧
      ((signal_reg sem_init_ok t id thr).2 id).tid = (t id).tid) := by
  refine ⟨?_, ?_, ?_⟩
  · intro hv ht
    unfold signal_reg
    rw [if_neg]
    rw [hv, ht]
    simp
  · intro hok h
    have hc : (t id).valid = false ∨ thr ≠ (t id).tid := by
      rcases h with h | h
      · exact Or.inl h
      · exact Or.inr (fun e => h e.symm)
    unfold signal_reg
    rw [if_pos hc, hok]
    refine ⟨rfl, by simp, by simp, by simp, ?_⟩
    intro j hj
    simp [hj]
  · intro hok
    unfold signal_reg
    rw [hok]
    split <;> simp

theorem C16_witness :
    (signal_reg true zero_table 5 77).1 = SUCCESS ∧
    ((signal_reg true zero_table 5 77).2 5).valid = true :=
  have h := (C16_signal_reg_outcomes true zero_table 5 77).2.1 rfl (Or.inl (by decide))
  ⟨h.1, h.2.1⟩

/-- C17 (the code at a failing input): for the 8-bit id 255 the test
`client_id <= MAX_CLIENT_255` holds, so `client_find` reads `cidtable[255]`,
one past the last of the 255 entries; when that memory reads as
`valid = TRUE` the entry is found and `send(255, msg)` returns SUCCESS and
stores `msg` there. -/
theorem C17_id_255_is_indexed :
    (255 : Nat) < 2 ^ 8 ∧
    ¬ (255 < CIDTABLE_LEN) ∧
    client_find_reads 255 = [255] ∧
    client_find behind_valid 255 = some 255 ∧
    (send SEM_MAX_RUN behind_valid 255 4120).1 = SUCCESS ∧
    ((send SEM_MAX_RUN behind_valid 255 4120).2 255).datap = 4120 := by
  decide

end Message

